import Mathlib

/-!
Verification of the Debian control-file codec and package model of the
aptly repository (files deb/format.go, deb/package_deps.go, deb/package.go).

Shallow embedding conventions:
* Go strings and byte slices are modelled as `Str := List Char`; Go text is
  processed line by line, so the readers below consume a `List Line` that
  stands for the token stream produced by `bufio.Scanner` with `ScanLines`.
* `Stanza` (Go `map[string]string`) is modelled as an association list with
  value-level operations matching the Go map semantics; map iteration order
  is irrelevant to every modelled operation (lookups, value checks, and the
  writer, which sorts keys explicitly).
* Go `unicode.ToUpper`/`ToLower` (used through `strings.ToUpper` and
  `strings.Map`) are modelled by `Char.toUpper`/`Char.toLower` (basic latin
  mapping); `unicode.IsSpace`/`bytes.TrimSpace` by the ASCII space set.
* `bufio.Scanner` with `Buffer(nil, MaxFieldSize)`: a line that cannot fit in
  the token buffer together with its terminator is a fatal scan error
  (`ErrTooLong`); this is modelled by failing on a line whose length reaches
  `MaxFieldSize`.  (The final unterminated line of a stream may hold exactly
  `MaxFieldSize` bytes in Go; that corner is not relied upon below.)
* Mutation of the caller-visible `Stanza` map behind a Go map reference is
  made explicit: `Package` holds a `StanzaRef` into a `Store`, and operations
  that mutate the map through the reference update the store.
-/

/-- Go string / byte slice contents, as a list of characters. -/
abbrev Str := List Char

/-- Shorthand turning a Lean string literal into a `Str`. -/
def S (s : String) : Str := s.data

/-- One input line as produced by the scanner (line terminator stripped). -/
abbrev Line := Str

/-- The ASCII white space set used by Go `bytes.TrimSpace` /
`strings.TrimSpace` (ASCII fast path of `unicode.IsSpace`). -/
def isSpaceGo (c : Char) : Bool :=
  c = ' ' || c = '\t' || c = '\n' || c = '\x0b' || c = '\x0c' || c = '\r'

/-- Go `bytes.TrimSpace` / `strings.TrimSpace`: drop white space from both
ends. -/
def trimGo (s : Str) : Str :=
  ((s.dropWhile isSpaceGo).reverse.dropWhile isSpaceGo).reverse

/-- Go `bytes.IndexByte` splitting: first occurrence of `c` in the list,
returning the parts before and after it. -/
def splitAtChar (c : Char) : Str → Option (Str × Str)
  | [] => none
  | x :: xs =>
    if x = c then some ([], xs)
    else (splitAtChar c xs).map (fun p => (x :: p.1, p.2))

/-- Go `strings.Split` on a one-character separator: always returns at least
one (possibly empty) segment. -/
def splitOnChar (sep : Char) : Str → List Str
  | [] => [[]]
  | c :: rest =>
    match splitOnChar sep rest with
    | [] => [[]]
    | g :: gs => if c = sep then [] :: g :: gs else (c :: g) :: gs

/-- Go `strings.Join`. -/
def joinSep (sep : Str) : List Str → Str
  | [] => []
  | [x] => x
  | x :: xs => x ++ sep ++ joinSep sep xs

/-- Lexicographic byte order on strings, as used by Go `sort.Strings`
(byte order and code-point order agree on valid UTF-8). -/
def strLe : Str → Str → Bool
  | [], _ => true
  | _ :: _, [] => false
  | a :: as, b :: bs => if a = b then strLe as bs else decide (a < b)

/-- Insert into a sorted list of strings (helper for `sortStrings`). -/
def insertSorted (x : Str) : List Str → List Str
  | [] => [x]
  | y :: ys => if strLe x y then x :: y :: ys else y :: insertSorted x ys

/-- Go `sort.Strings`: deterministic ascending sort of a key list. -/
def sortStrings : List Str → List Str
  | [] => []
  | x :: xs => insertSorted x (sortStrings xs)

/-- Go `strings.ToUpper`, restricted to the basic latin mapping. -/
def toUpperGo (s : Str) : Str := s.map Char.toUpper

/-! ## Stanza (deb/format.go)

`type Stanza map[string]string`, modelled as an association list with unique
keys maintained by the operations. -/

/-- Stanza or paragraph of Debian control file (Go `map[string]string`). -/
abbrev Stanza := List (Str × Str)

namespace Stanza

/-- Map lookup `s[key]`; an absent key yields the zero value `""`.
Modelled from the spec: the method `Stanza.Get` itself is not among the
provided sources (only its callers are); per the spec an absent key returns
empty text, never an error, which also matches Go map zero-value indexing. -/
def get (s : Stanza) (key : Str) : Str :=
  match s.find? (fun kv => kv.1 == key) with
  | some kv => kv.2
  | none => []

/-- Does the map contain the key (Go `_, ok := s[key]`)? -/
def hasKey (s : Stanza) (key : Str) : Bool :=
  (s.find? (fun kv => kv.1 == key)).isSome

/-- Map assignment `s[key] = value`: overwrite in place or append.
Modelled from the spec: the method `Stanza.Set` is not among the provided
sources; per the spec it creates or overwrites the binding. -/
def set (s : Stanza) (key value : Str) : Stanza :=
  match s with
  | [] => [(key, value)]
  | kv :: rest =>
    if kv.1 = key then (key, value) :: rest else kv :: set rest key value

/-- `func (s Stanza) Reset(key string) { s[key] = "" }` -/
def reset (s : Stanza) (key : Str) : Stanza := s.set key []

/-- `delete(s, field)` (used by the writer). -/
def del (s : Stanza) (key : Str) : Stanza := s.filter (fun kv => kv.1 ≠ key)

/-- `func (s Stanza) Empty() bool`: true when every value is empty. -/
def emptyB (s : Stanza) : Bool := s.all (fun kv => kv.2 = [])

/-- `func (s Stanza) Copy() Stanza`: a fresh map with the same contents
(content-level identity; independence of the backing storage is modelled at
the `Store` level below). -/
def copy (s : Stanza) : Stanza := s

/-- The key list of the map (iteration order of the association list). -/
def keys (s : Stanza) : List Str := s.map (fun kv => kv.1)

/-- Unique-keys invariant every Go map satisfies. -/
def keysNodup (s : Stanza) : Prop := s.keys.Nodup

end Stanza

/-- MaxFieldSize is maximum stanza field size in bytes (deb/format.go). -/
def MaxFieldSize : Nat := 2 * 1024 * 1024

/-! Canonical order of fields in stanza (deb/format.go). -/

/-- Canonical field order for Release files. -/
def canonicalOrderRelease : List Str :=
  [S "Origin", S "Label", S "Archive", S "Suite", S "Version", S "Codename",
   S "Date", S "NotAutomatic", S "ButAutomaticUpgrades", S "Architectures",
   S "Architecture", S "Components", S "Component", S "Description",
   S "MD5Sum", S "SHA1", S "SHA256", S "SHA512"]

/-- Canonical field order for binary package stanzas. -/
def canonicalOrderBinary : List Str :=
  [S "Package", S "Essential", S "Status", S "Priority", S "Section",
   S "Installed-Size", S "Maintainer", S "Original-Maintainer",
   S "Architecture", S "Source", S "Version", S "Replaces", S "Provides",
   S "Depends", S "Pre-Depends", S "Recommends", S "Suggests", S "Conflicts",
   S "Breaks", S "Conffiles", S "Filename", S "Size", S "MD5Sum", S "MD5sum",
   S "SHA1", S "SHA256", S "SHA512", S "Description"]

/-- Canonical field order for source package stanzas. -/
def canonicalOrderSource : List Str :=
  [S "Package", S "Source", S "Binary", S "Version", S "Priority",
   S "Section", S "Maintainer", S "Original-Maintainer", S "Build-Depends",
   S "Build-Depends-Indep", S "Build-Conflicts", S "Build-Conflicts-Indep",
   S "Architecture", S "Standards-Version", S "Format", S "Directory",
   S "Files"]

/-- Canonical field order for installer checksum files: one unnamed field. -/
def canonicalOrderInstaller : List Str := [S ""]

/-- `func isMultilineField(field string, isRelease bool) bool`
(deb/format.go): switch over the field name. -/
def isMultilineField (field : Str) (isRelease : Bool) : Bool :=
  if field = S "" then true
  else if field = S "Description" then true
  else if field = S "Files" then true
  else if field = S "Changes" then true
  else if field = S "Checksums-Sha1" then true
  else if field = S "Checksums-Sha256" then true
  else if field = S "Checksums-Sha512" then true
  else if field = S "Package-List" then true
  else if field = S "MD5Sum" then isRelease
  else if field = S "SHA1" then isRelease
  else if field = S "SHA256" then isRelease
  else if field = S "SHA512" then isRelease
  else false

/-- The stateful function passed to `strings.Map` by `canonicalCase`: the
first letter and every letter following a `-` is upper-cased, the rest is
lower-cased.  The boolean is the captured `startOfWord` state. -/
def titleCaseGo : Str → Bool → Str
  | [], _ => []
  | c :: rest, true => c.toUpper :: titleCaseGo rest false
  | c :: rest, false =>
    if c = '-' then c.toLower :: titleCaseGo rest true
    else c.toLower :: titleCaseGo rest false

/-- `func canonicalCase(field string) string` (deb/format.go): exact match
against the canonical lists, then a fixed table keyed by the upper-cased
name, then per-word title casing.  (The Go function also guarantees that the
result is a freshly allocated string; allocation identity is not modelled.) -/
def canonicalCase (field : Str) : Str :=
  if canonicalOrderRelease.contains field then field
  else if canonicalOrderBinary.contains field then field
  else if canonicalOrderSource.contains field then field
  else if toUpperGo field = S "SHA1" then S "SHA1"
  else if toUpperGo field = S "SHA256" then S "SHA256"
  else if toUpperGo field = S "SHA512" then S "SHA512"
  else if toUpperGo field = S "MD5SUM" then S "MD5Sum"
  else if toUpperGo field = S "NOTAUTOMATIC" then S "NotAutomatic"
  else if toUpperGo field = S "BUTAUTOMATICUPGRADES" then S "ButAutomaticUpgrades"
  else titleCaseGo field true

/-! ## Writer (deb/format.go) -/

/-- `func writeField(w *bufio.Writer, field, value string, isRelease bool)`:
the text emitted for one field.  (The `*bufio.Writer` is modelled as the
returned text; write failures abort in Go and are not modelled since the
modelled writer cannot fail.) -/
def writeField (field value : Str) (isRelease : Bool) : Str :=
  if ¬ isMultilineField field isRelease then
    field ++ S ": " ++ value ++ S "\n"
  else
    let value :=
      if field ≠ S "" ∧ ¬ (value.getLast? = some '\n') then value ++ S "\n"
      else value
    let value :=
      if field ≠ S "Description" ∧ field ≠ S "" then S "\n" ++ value
      else value
    if field ≠ S "" then field ++ S ":" ++ value else value

/-- The canonical order list selected by `Stanza.WriteTo` from its three
booleans (binary, overridden in turn by source, release, installer). -/
def selectedOrder (isSource isRelease isInstaller : Bool) : List Str :=
  let o := canonicalOrderBinary
  let o := if isSource then canonicalOrderSource else o
  let o := if isRelease then canonicalOrderRelease else o
  if isInstaller then canonicalOrderInstaller else o

/-- First pass of `Stanza.WriteTo`: walk the canonical order, emitting and
deleting each field found in the stanza. -/
def writeCanonicalPass (order : List Str) (s : Stanza) (isRelease : Bool) :
    Str × Stanza :=
  match order with
  | [] => ([], s)
  | field :: rest =>
    if s.hasKey field then
      let out := writeField field (s.get field) isRelease
      let p := writeCanonicalPass rest (s.del field) isRelease
      (out ++ p.1, p.2)
    else writeCanonicalPass rest s isRelease

/-- Second pass of `Stanza.WriteTo`: emit the remaining fields in sorted key
order. -/
def writeExtraPass (s : Stanza) (isRelease : Bool) : Str :=
  ((sortStrings s.keys).map (fun field => writeField field (s.get field) isRelease)).flatten

/-- `func (s Stanza) WriteTo(w *bufio.Writer, isSource, isRelease,
isInstaller bool) error` (deb/format.go): canonical fields first (each
deleted as it is written), then, unless in installer mode, the remaining
fields in alphabetical order.  Returns the emitted text and the drained
stanza (WriteTo modifies the stanza on the fly). -/
def Stanza.WriteTo (s : Stanza) (isSource isRelease isInstaller : Bool) :
    Str × Stanza :=
  let p := writeCanonicalPass (selectedOrder isSource isRelease isInstaller) s isRelease
  if ¬ isInstaller then (p.1 ++ writeExtraPass p.2 isRelease, p.2)
  else (p.1, p.2)

/-! ## Reader (deb/format.go) -/

/-- Parsing errors (deb/format.go) together with the scanner failure
(`bufio.ErrTooLong`) surfaced through `scanner.Err()`. -/
inductive ReadErr where
  | malformedStanza : ReadErr
  | invalidArgument : ReadErr
  | tooLong : ReadErr
deriving DecidableEq, Repr

/-- Result of one buffered stanza read: the final contents of the
caller-provided buffer, the unconsumed lines of the stream, and the error,
if any.  The buffer contents are returned even on error because Go mutates
the provided map in place. -/
structure ReadOut where
  buf : Stanza
  rest : List Line
  err : Option ReadErr
deriving DecidableEq, Repr

/-- Does the line start a new field (not a continuation)?  In Go:
`lastFieldFinished := !(lineBytes[0] == ' ' || lineBytes[0] == '\t' ||
c.isInstaller)` evaluated on a non-empty line. -/
def contStart (l : Line) : Bool :=
  match l.head? with
  | some ' ' => true
  | some '\t' => true
  | _ => false

/-- The value stored when a new field starts: for a multi-line field the raw
text after the colon plus a newline when non-empty, for a single-line field
the trimmed text. -/
def fieldStartValue (multiline : Bool) (v : Str) : Str :=
  if multiline then (if v.length > 0 then v ++ S "\n" else [])
  else trimGo v

/-- The main loop of `ControlFileReader.ReadBufferedStanza` (deb/format.go).
State: the buffer `stanza`, `lastField`, `lastFieldMultiline`, `lastValue`.
Each scanned line must fit the scanner token buffer (`MaxFieldSize`). -/
def readLoop (isRelease isInstaller : Bool) (stanza : Stanza)
    (lastField : Str) (lastFieldMultiline : Bool) (lastValue : Str) :
    List Line → ReadOut
  | [] => ⟨stanza, [], none⟩
  | line :: rest =>
    if MaxFieldSize ≤ line.length then ⟨stanza, rest, some .tooLong⟩
    else if line.length = 0 then
      if ¬ stanza.emptyB then ⟨stanza, rest, none⟩
      else readLoop isRelease isInstaller stanza lastField lastFieldMultiline lastValue rest
    else if contStart line || isInstaller then
      -- continuation of the previous field
      if lastFieldMultiline then
        let lastValue := lastValue ++ line ++ S "\n"
        readLoop isRelease isInstaller (stanza.set lastField lastValue)
          lastField lastFieldMultiline lastValue rest
      else
        let lastValue := lastValue ++ S " " ++ trimGo line
        readLoop isRelease isInstaller (stanza.set lastField lastValue)
          lastField lastFieldMultiline lastValue rest
    else
      match splitAtChar ':' line with
      | none => ⟨stanza, rest, some .malformedStanza⟩
      | some (fieldBytes, valueBytes) =>
        let lastField := canonicalCase fieldBytes
        let lastFieldMultiline := isMultilineField lastField isRelease
        let lastValue := fieldStartValue lastFieldMultiline valueBytes
        readLoop isRelease isInstaller (stanza.set lastField lastValue)
          lastField lastFieldMultiline lastValue rest

/-- `func (c *ControlFileReader) ReadBufferedStanza(stanza Stanza) error`:
reads one stanza from the line stream into the provided buffer.  (The nil
map argument check returning `ErrInvalidArgument` is a Go-level contract
check with no counterpart here, where a buffer is always a value.) -/
def ReadBufferedStanza (isRelease isInstaller : Bool) (stanza : Stanza)
    (lines : List Line) : ReadOut :=
  readLoop isRelease isInstaller stanza [] isInstaller [] lines

/-- `func (c *ControlFileReader) ReadStanza() (Stanza, error)`: reads into a
fresh buffer; a non-empty buffer is the next stanza, an empty one signals
the end of the stream. -/
def ReadStanza (isRelease isInstaller : Bool) (lines : List Line) :
    Option Stanza × List Line × Option ReadErr :=
  let o := ReadBufferedStanza isRelease isInstaller [] lines
  match o.err with
  | some e => (none, o.rest, some e)
  | none => if ¬ o.buf.emptyB then (some o.buf, o.rest, none) else (none, o.rest, none)

/-- Driver loop iterating `ReadStanza` the way its callers do (modelled
from the spec: the reader "produces stanzas one at a time" until the
no-more-data signal): collects the returned stanzas until the end-of-stream
signal or an error.  The fuel is bounded by the line count, which every
successful `ReadStanza` call strictly decreases. -/
def readAllFrom (isRelease isInstaller : Bool) :
    Nat → List Line → List Stanza × Option ReadErr
  | 0, _ => ([], none)
  | fuel + 1, lines =>
    match ReadStanza isRelease isInstaller lines with
    | (none, _, none) => ([], none)
    | (_, _, some e) => ([], some e)
    | (some st, rest, none) =>
      let r := readAllFrom isRelease isInstaller fuel rest
      (st :: r.1, r.2)

/-- The whole sequence of stanzas of a line stream. -/
def readAllStanzas (isRelease isInstaller : Bool) (lines : List Line) :
    List Stanza × Option ReadErr :=
  readAllFrom isRelease isInstaller (lines.length + 1) lines

/-! ## Dependency parsing (deb/package_deps.go) -/

/-- PackageDependencies are various parsed dependencies.  Go nil slices are
`none`; a present slice is `some`. -/
structure PackageDependencies where
  Depends : Option (List Str)
  BuildDepends : Option (List Str)
  BuildDependsInDep : Option (List Str)
  PreDepends : Option (List Str)
  Suggests : Option (List Str)
  Recommends : Option (List Str)
deriving DecidableEq, Repr

/-- `func parseDependencies(input Stanza, key string) []string`
(deb/package_deps.go).  The stanza is mutated (`input.Reset(key)`), so the
updated stanza is returned alongside the parsed list. -/
def parseDependencies (input : Stanza) (key : Str) :
    Option (List Str) × Stanza :=
  let value := input.get key
  if value = [] then (none, input)
  else
    let input := input.reset key
    let value := trimGo value
    if value = [] then (none, input)
    else (some ((splitOnChar ',' value).map trimGo), input)

/-! ## Go `path/filepath` collaborators (unix separators)

`filepath.Base`, `filepath.Dir` and `filepath.Join` are Go standard library
collaborators used by the package constructor; `Clean` is modelled by the
equivalent component-stack formulation of the Go algorithm. -/

/-- One step of path cleaning: push a component, resolving `..` against the
stack as in Go `filepath.Clean`. -/
def cleanStep (rooted : Bool) (acc : List Str) (c : Str) : List Str :=
  if c = S ".." then
    match acc.getLast? with
    | some last => if last = S ".." then acc ++ [c] else acc.dropLast
    | none => if rooted then [] else [c]
  else acc ++ [c]

/-- Go `filepath.Clean` for unix paths (component-stack formulation of the
lexical algorithm: drop empty and `.` components, resolve `..`, keep leading
`..` on relative paths, return `.` for an empty result). -/
def cleanPath (p : Str) : Str :=
  if p = [] then S "."
  else
    let rooted := p.head? = some '/'
    let comps := (splitOnChar '/' p).filter (fun c => c ≠ [] ∧ c ≠ S ".")
    let outComps := comps.foldl (cleanStep rooted) []
    if outComps = [] then (if rooted then S "/" else S ".")
    else (if rooted then S "/" else []) ++ joinSep (S "/") outComps

/-- Go `filepath.Base` for unix paths. -/
def goBase (p : Str) : Str :=
  if p = [] then S "."
  else
    let q := (p.reverse.dropWhile (fun c => c = '/')).reverse
    if q = [] then S "/"
    else (q.reverse.takeWhile (fun c => c ≠ '/')).reverse

/-- Go `filepath.Dir` for unix paths: everything up to and including the
final separator, cleaned. -/
def goDir (p : Str) : Str :=
  cleanPath ((p.reverse.dropWhile (fun c => c ≠ '/')).reverse)

/-- Go `filepath.Join` for unix paths: non-empty elements joined and
cleaned; all-empty input yields the empty path. -/
def goJoin (elems : List Str) : Str :=
  let ne := elems.filter (fun e => e ≠ [])
  if ne = [] then [] else cleanPath (joinSep (S "/") ne)

/-! ## Package model (deb/package.go) -/

/-- The checksum part of a file record.  Modelled from the spec: the
`utils.ChecksumInfo` collaborator has size and md5/sha1/sha256/sha512 text
fields, each optionally empty. -/
structure ChecksumInfo where
  size : Int
  md5 : Str
  sha1 : Str
  sha256 : Str
  sha512 : Str
deriving DecidableEq, Repr

/-- Modelled from the spec: the file/checksum record collaborator
(`deb.PackageFile`, not among the provided sources) with file name, download
path and checksums. -/
structure PackageFile where
  filename : Str
  downloadPath : Str
  checksums : ChecksumInfo
deriving DecidableEq, Repr

/-- Modelled from the spec: `PackageFile.DownloadURL` rejoins the download
directory and the base file name. -/
def PackageFile.DownloadURL (f : PackageFile) : Str :=
  goJoin [f.downloadPath, f.filename]

/-- A collection of package files. -/
abbrev PackageFiles := List PackageFile

/-! A store of stanza values, making Go map reference semantics explicit:
a `Package` holds a reference to its extra-fields stanza, and mutating
operations go through the store. -/

/-- Reference to a stanza allocated in a `Store`. -/
abbrev StanzaRef := Nat

/-- A heap of allocated stanzas. -/
structure Store where
  cells : List Stanza
deriving DecidableEq, Repr

/-- Dereference (reads an allocated stanza). -/
def Store.getRef (σ : Store) (r : StanzaRef) : Stanza := σ.cells.getD r []

/-- Overwrite the stanza behind a reference. -/
def Store.setRef (σ : Store) (r : StanzaRef) (s : Stanza) : Store :=
  ⟨σ.cells.set r s⟩

/-- Allocate a fresh stanza, returning its reference. -/
def Store.alloc (σ : Store) (s : Stanza) : Store × StanzaRef :=
  (⟨σ.cells ++ [s]⟩, σ.cells.length)

/-- `stanza.Set(key, value)` performed through a map reference. -/
def Store.setField (σ : Store) (r : StanzaRef) (key value : Str) : Store :=
  σ.setRef r ((σ.getRef r).set key value)

/-- Package is single instance of Debian package (deb/package.go).  The
lazily loaded sub-records (`deps`, `extra`, `files`) are modelled as always
materialised, which is the state of any package built by a constructor; the
panic on access without a backing collection is out of scope. -/
structure Package where
  Name : Str
  Version : Str
  Architecture : Str
  SourceArchitecture : Str
  Source : Str
  Provides : Option (List Str)
  FilesHash : Nat
  IsInstaller : Bool
  IsSource : Bool
  IsUdeb : Bool
  V06Plus : Bool
  deps : PackageDependencies
  extra : StanzaRef
  files : PackageFiles
deriving DecidableEq, Repr

/-- `func (p *Package) Extra() Stanza`: the stored extra-fields stanza. -/
def Package.Extra (σ : Store) (p : Package) : Stanza := σ.getRef p.extra

/-- Lowercase hexadecimal digit characters. -/
def hexDigitChar (n : Nat) : Char :=
  if n < 10 then Char.ofNat (48 + n) else Char.ofNat (87 + n)

/-- Fuel-driven accumulator loop producing hexadecimal digits, most
significant first. -/
def hexAux : Nat → Nat → Str → Str
  | 0, _, acc => acc
  | fuel + 1, n, acc =>
    if n < 16 then hexDigitChar n :: acc
    else hexAux fuel (n / 16) (hexDigitChar (n % 16) :: acc)

/-- Lowercase hexadecimal digits of a number (Go `%x`): no leading zeros,
except a single `0` for zero.  The fuel 64 covers every number below
`16 ^ 64`, far beyond the `uint64` range of the hashes being printed. -/
def hexStr (n : Nat) : Str := hexAux 64 n []

/-- Go `fmt` verb `%08x`: lowercase hexadecimal, left-padded with zeros to a
minimum width of eight digits (wider numbers keep all their digits). -/
def sprintfHex08 (n : Nat) : Str :=
  (if (hexStr n).length < 8 then List.replicate (8 - (hexStr n).length) '0'
   else []) ++ hexStr n

/-- Go `fmt` verb `%d` on an `int64`. -/
def intDecimal (i : Int) : Str :=
  if i < 0 then '-' :: Nat.toDigits 10 i.natAbs else Nat.toDigits 10 i.natAbs

/-- `func (p *Package) ShortKey(prefix string) []byte` (deb/package.go):
`fmt.Sprintf("%sP%s %s %s", prefix, p.Architecture, p.Name, p.Version)`. -/
def Package.ShortKey (p : Package) (pfx : Str) : Str :=
  pfx ++ S "P" ++ p.Architecture ++ S " " ++ p.Name ++ S " " ++ p.Version

/-- `func (p *Package) Key(prefix string) []byte` (deb/package.go):
`fmt.Sprintf("%sP%s %s %s %08x", prefix, p.Architecture, p.Name, p.Version,
p.FilesHash)` for V06Plus packages, otherwise the short key. -/
def Package.Key (p : Package) (pfx : Str) : Str :=
  if p.V06Plus then
    pfx ++ S "P" ++ p.Architecture ++ S " " ++ p.Name ++ S " " ++ p.Version
      ++ S " " ++ sprintfHex08 p.FilesHash
  else p.ShortKey pfx

/-- `strconv.ParseInt(s, 10, 64)` with the error ignored, as in the package
constructor: syntax errors yield 0, range errors yield the clamped bound. -/
def parseIntGo (s : Str) : Int :=
  let sd : Bool × Str :=
    match s with
    | '-' :: rest => (true, rest)
    | '+' :: rest => (false, rest)
    | _ => (false, s)
  if sd.2 = [] || sd.2.any (fun c => ¬ c.isDigit) then 0
  else
    let n : Nat := sd.2.foldl (fun acc c => acc * 10 + (c.toNat - 48)) 0
    if sd.1 then (if n > 2 ^ 63 then -(2 ^ 63 : Int) else -(n : Int))
    else (if n ≥ 2 ^ 63 then (2 ^ 63 - 1 : Int) else (n : Int))

/-- `func (p *Package) UpdateFiles(files PackageFiles)` (deb/package.go);
`PackageFiles.Hash` is an external fingerprint collaborator that is not
among the provided sources, so it is taken as the parameter `hashFn`
(modelled from the spec: a content-hash-style fingerprint of the file
set). -/
def Package.UpdateFiles (hashFn : PackageFiles → Nat) (p : Package)
    (files : PackageFiles) : Package :=
  { p with files := files, FilesHash := hashFn files }

/-- `func NewPackageFromControlFile(input Stanza) *Package`
(deb/package.go): extract the typed fields, build the single file record,
reset the consumed fields, parse the dependency lists, and keep an
independent copy of the remainder as the extra-fields stanza (allocated in
the store).  The four argument-less `input.Get` statements of the Go code
have no effect and are omitted. -/
def NewPackageFromControlFile (hashFn : PackageFiles → Nat) (σ : Store)
    (input : Stanza) : Store × Package :=
  let name := input.get (S "Package")
  let version := input.get (S "Version")
  let arch := input.get (S "Architecture")
  let src := input.get (S "Source")
  let filesize := parseIntGo (input.get (S "Size"))
  let md5 :=
    if input.get (S "MD5sum") = [] then input.get (S "MD5Sum")
    else input.get (S "MD5sum")
  let file : PackageFile :=
    { filename := goBase (input.get (S "Filename"))
      downloadPath := goDir (input.get (S "Filename"))
      checksums :=
        { size := filesize
          md5 := trimGo md5
          sha1 := trimGo (input.get (S "SHA1"))
          sha256 := trimGo (input.get (S "SHA256"))
          sha512 := trimGo (input.get (S "SHA512")) } }
  let input := input.reset (S "Filename")
  let input := input.reset (S "MD5sum")
  let input := input.reset (S "MD5Sum")
  let input := input.reset (S "SHA1")
  let input := input.reset (S "SHA256")
  let input := input.reset (S "SHA512")
  let input := input.reset (S "Size")
  let d1 := parseDependencies input (S "Depends")
  let d2 := parseDependencies d1.2 (S "Pre-Depends")
  let d3 := parseDependencies d2.2 (S "Suggests")
  let d4 := parseDependencies d3.2 (S "Recommends")
  let dp := parseDependencies d4.2 (S "Provides")
  let al := σ.alloc (Stanza.copy dp.2)
  let base : Package :=
    { Name := name, Version := version, Architecture := arch
      SourceArchitecture := [], Source := src, Provides := dp.1
      FilesHash := 0, IsInstaller := false, IsSource := false
      IsUdeb := false, V06Plus := true
      deps :=
        { Depends := d1.1, PreDepends := d2.1, Suggests := d3.1
          Recommends := d4.1, BuildDepends := none, BuildDependsInDep := none }
      extra := al.2, files := [] }
  (al.1, base.UpdateFiles hashFn [file])

/-- One ` checksum size filename\n` block line list of the source branch of
`Package.Stanza`: files whose selected checksum is present, in order. -/
def sourceFileLines (files : PackageFiles) (pick : PackageFile → Str) :
    List Str :=
  (files.filter (fun f => pick f ≠ [])).map (fun f =>
    S " " ++ pick f ++ S " " ++ intDecimal f.checksums.size ++ S " "
      ++ f.filename ++ S "\n")

/-- The default file record used to model the Go expression `p.Files()[0]`,
which panics when the file list is empty; every constructed package carries
at least one file. -/
def emptyPackageFile : PackageFile :=
  { filename := [], downloadPath := [], checksums := ⟨0, [], [], [], []⟩ }

/-- The dependency/provides trailer of `Package.Stanza` (deb/package.go):
each list that is non-nil is joined with a comma and written. -/
def stanzaDepsBlock (σ : Store) (r : StanzaRef) (p : Package) : Store :=
  let σ := match p.deps.Depends with
    | some l => σ.setField r (S "Depends") (joinSep (S ", ") l)
    | none => σ
  let σ := match p.deps.PreDepends with
    | some l => σ.setField r (S "Pre-Depends") (joinSep (S ", ") l)
    | none => σ
  let σ := match p.deps.Suggests with
    | some l => σ.setField r (S "Suggests") (joinSep (S ", ") l)
    | none => σ
  let σ := match p.deps.Recommends with
    | some l => σ.setField r (S "Recommends") (joinSep (S ", ") l)
    | none => σ
  let σ := match p.Provides with
    | some l => σ.setField r (S "Provides") (joinSep (S ", ") l)
    | none => σ
  let σ := match p.deps.BuildDepends with
    | some l => σ.setField r (S "Build-Depends") (joinSep (S ", ") l)
    | none => σ
  match p.deps.BuildDependsInDep with
    | some l => σ.setField r (S "Build-Depends-Indep") (joinSep (S ", ") l)
    | none => σ

/-- The per-variant file block of `Package.Stanza` (deb/package.go),
written through the aliased result reference `r`. -/
def stanzaFilesBlock (σ : Store) (r : StanzaRef) (p : Package) : Store :=
  if p.IsSource then
    let md5L := sourceFileLines p.files (fun f => f.checksums.md5)
    let sha1L := sourceFileLines p.files (fun f => f.checksums.sha1)
    let sha256L := sourceFileLines p.files (fun f => f.checksums.sha256)
    let sha512L := sourceFileLines p.files (fun f => f.checksums.sha512)
    let σ := σ.setField r (S "Files") (joinSep [] md5L)
    let σ := if sha1L.length > 0 then
        σ.setField r (S "Checksums-Sha1") (joinSep [] sha1L) else σ
    let σ := if sha256L.length > 0 then
        σ.setField r (S "Checksums-Sha256") (joinSep [] sha256L) else σ
    if sha512L.length > 0 then
        σ.setField r (S "Checksums-Sha512") (joinSep [] sha512L) else σ
  else if p.IsInstaller then
    let lines := p.files.map (fun f => f.checksums.sha256 ++ S "  " ++ f.filename)
    σ.setField r (S "") (joinSep (S "\n") lines)
  else
    let f := p.files.headD emptyPackageFile
    let σ := σ.setField r (S "Filename") f.DownloadURL
    let σ := if f.checksums.md5 ≠ [] then
        σ.setField r (S "MD5sum") f.checksums.md5 else σ
    let σ := if f.checksums.sha1 ≠ [] then
        σ.setField r (S "SHA1") f.checksums.sha1 else σ
    let σ := if f.checksums.sha256 ≠ [] then
        σ.setField r (S "SHA256") f.checksums.sha256 else σ
    let σ := if f.checksums.sha512 ≠ [] then
        σ.setField r (S "SHA512") f.checksums.sha512 else σ
    σ.setField r (S "Size") (intDecimal f.checksums.size)

/-- `func (p *Package) Stanza() (result Stanza)` (deb/package.go): the
result starts as `p.Extra()` — the same map the package stores, so every
`Set` below also mutates the stored extra stanza — and a copy of it is
allocated and returned only at the end (`return result.Copy()`). -/
def Package.stanza (σ : Store) (p : Package) : Store × StanzaRef :=
  let r := p.extra
  let σ := σ.setField r (S "Package") p.Name
  let σ := σ.setField r (S "Version") p.Version
  let σ :=
    if p.IsSource then σ.setField r (S "Architecture") p.SourceArchitecture
    else
      let σ := σ.setField r (S "Architecture") p.Architecture
      if p.Source ≠ [] then σ.setField r (S "Source") p.Source else σ
  let σ := stanzaFilesBlock σ r p
  let σ := stanzaDepsBlock σ r p
  σ.alloc (Stanza.copy (σ.getRef r))

/-- A sample parsed binary-package control stanza, used to evaluate the
package constructor and `Package.stanza` on concrete input. -/
def exampleControlStanza : Stanza :=
  [(S "Package", S "a"), (S "Version", S "1"),
   (S "Architecture", S "amd64"), (S "Filename", S "pool/main/a/a_1.deb"),
   (S "Size", S "10"), (S "MD5sum", S "aabb"), (S "Description", S "test")]

/-- The store and package built from the sample stanza, with a trivial hash
function standing in for the external file-fingerprint collaborator. -/
def examplePackageBuild : Store × Package :=
  NewPackageFromControlFile (fun _ => 0) ⟨[]⟩ exampleControlStanza

/-! # Theorems

Helper lemmas about the basic latin case mappings, followed by the claim
theorems. -/

theorem char_toNat_ofNat_valid (n : Nat) (h : n.isValidChar) :
    (Char.ofNat n).toNat = n := by
  rw [Char.ofNat, dif_pos h, Char.ofNatAux]
  simp [Char.toNat, UInt32.toNat, BitVec.toNat_ofNatLt]

theorem toUpper_toUpper (c : Char) : c.toUpper.toUpper = c.toUpper := by
  unfold Char.toUpper
  simp only []
  by_cases h : c.toNat ≥ 97 ∧ c.toNat ≤ 122
  · rw [if_pos h, char_toNat_ofNat_valid _ (Or.inl (by omega)), if_neg (by omega)]
  · rw [if_neg h, if_neg h]

theorem toLower_toLower (c : Char) : c.toLower.toLower = c.toLower := by
  unfold Char.toLower
  simp only []
  by_cases h : c.toNat ≥ 65 ∧ c.toNat ≤ 90
  · rw [if_pos h, char_toNat_ofNat_valid _ (Or.inl (by omega)), if_neg (by omega)]
  · rw [if_neg h, if_neg h]

theorem toUpper_toLower (c : Char) : c.toLower.toUpper = c.toUpper := by
  unfold Char.toUpper Char.toLower
  simp only []
  by_cases h : c.toNat ≥ 65 ∧ c.toNat ≤ 90
  · rw [if_pos h, char_toNat_ofNat_valid _ (Or.inl (by omega)),
      if_pos (by omega), if_neg (by omega)]
    have h32 : c.toNat + 32 - 32 = c.toNat := by omega
    rw [h32, Char.ofNat_toNat]
  · rw [if_neg h]

theorem toLower_ne_dash {c : Char} (h : c ≠ '-') : c.toLower ≠ '-' := by
  intro hc
  apply h
  have hn : c.toLower.toNat = ('-' : Char).toNat := by rw [hc]
  unfold Char.toLower at hn
  simp only [] at hn
  by_cases hr : c.toNat ≥ 65 ∧ c.toNat ≤ 90
  · rw [if_pos hr, char_toNat_ofNat_valid _ (Or.inl (by omega))] at hn
    have : ('-' : Char).toNat = 45 := by decide
    omega
  · rw [if_neg hr] at hn
    have := Char.ofNat_toNat c
    rw [hn] at this
    rw [← this]
    rfl

theorem titleCaseGo_idem (cs : Str) :
    ∀ b, titleCaseGo (titleCaseGo cs b) b = titleCaseGo cs b := by
  induction cs with
  | nil => intro b; rfl
  | cons c rest ih =>
    intro b
    cases b with
    | true => simp only [titleCaseGo, toUpper_toUpper, ih false]
    | false =>
      by_cases hc : c = '-'
      · subst hc
        have hdl : ('-' : Char).toLower = '-' := by decide
        have e1 : titleCaseGo ('-' :: rest) false = '-' :: titleCaseGo rest true := by
          simp [titleCaseGo, hdl]
        have e2 : titleCaseGo ('-' :: titleCaseGo rest true) false
            = '-' :: titleCaseGo (titleCaseGo rest true) true := by
          simp [titleCaseGo, hdl]
        rw [e1, e2, ih true]
      · simp only [titleCaseGo, if_neg hc, if_neg (toLower_ne_dash hc),
          toLower_toLower, ih false]

theorem toUpperGo_titleCaseGo (cs : Str) :
    ∀ b, toUpperGo (titleCaseGo cs b) = toUpperGo cs := by
  induction cs with
  | nil => intro b; rfl
  | cons c rest ih =>
    intro b
    cases b with
    | true =>
      simp only [titleCaseGo, toUpperGo, List.map, toUpper_toUpper]
      rw [show (titleCaseGo rest false).map Char.toUpper
          = toUpperGo (titleCaseGo rest false) from rfl, ih false]
      rfl
    | false =>
      by_cases hc : c = '-'
      · subst hc
        simp only [titleCaseGo, if_pos rfl, toUpperGo, List.map, toUpper_toLower]
        rw [show (titleCaseGo rest true).map Char.toUpper
            = toUpperGo (titleCaseGo rest true) from rfl, ih true]
        rfl
      · simp only [titleCaseGo, if_neg hc, toUpperGo, List.map, toUpper_toLower]
        rw [show (titleCaseGo rest false).map Char.toUpper
            = toUpperGo (titleCaseGo rest false) from rfl, ih false]
        rfl

theorem cc_of_rel {f : Str} (h : canonicalOrderRelease.contains f = true) :
    canonicalCase f = f := by
  unfold canonicalCase; rw [if_pos h]

theorem cc_of_bin {f : Str} (h1 : ¬ canonicalOrderRelease.contains f = true)
    (h2 : canonicalOrderBinary.contains f = true) : canonicalCase f = f := by
  unfold canonicalCase; rw [if_neg h1, if_pos h2]

theorem cc_of_src {f : Str} (h1 : ¬ canonicalOrderRelease.contains f = true)
    (h2 : ¬ canonicalOrderBinary.contains f = true)
    (h3 : canonicalOrderSource.contains f = true) : canonicalCase f = f := by
  unfold canonicalCase; rw [if_neg h1, if_neg h2, if_pos h3]

theorem cc_of_title {f : Str} (h1 : ¬ canonicalOrderRelease.contains f = true)
    (h2 : ¬ canonicalOrderBinary.contains f = true)
    (h3 : ¬ canonicalOrderSource.contains f = true)
    (h4 : toUpperGo f ≠ S "SHA1") (h5 : toUpperGo f ≠ S "SHA256")
    (h6 : toUpperGo f ≠ S "SHA512") (h7 : toUpperGo f ≠ S "MD5SUM")
    (h8 : toUpperGo f ≠ S "NOTAUTOMATIC")
    (h9 : toUpperGo f ≠ S "BUTAUTOMATICUPGRADES") :
    canonicalCase f = titleCaseGo f true := by
  unfold canonicalCase
  rw [if_neg h1, if_neg h2, if_neg h3, if_neg h4, if_neg h5, if_neg h6,
    if_neg h7, if_neg h8, if_neg h9]

set_option maxHeartbeats 2000000 in
/-- C8: canonicalCase is idempotent: for every input string, applying
canonicalCase twice gives the same result as applying it once. -/
theorem C8_canonicalCase_idempotent (field : Str) :
    canonicalCase (canonicalCase field) = canonicalCase field := by
  by_cases h1 : canonicalOrderRelease.contains field = true
  · rw [cc_of_rel h1, cc_of_rel h1]
  by_cases h2 : canonicalOrderBinary.contains field = true
  · rw [cc_of_bin h1 h2, cc_of_bin h1 h2]
  by_cases h3 : canonicalOrderSource.contains field = true
  · rw [cc_of_src h1 h2 h3, cc_of_src h1 h2 h3]
  by_cases h4 : toUpperGo field = S "SHA1"
  · have e : canonicalCase field = S "SHA1" := by
      unfold canonicalCase; rw [if_neg h1, if_neg h2, if_neg h3, if_pos h4]
    rw [e]; decide
  by_cases h5 : toUpperGo field = S "SHA256"
  · have e : canonicalCase field = S "SHA256" := by
      unfold canonicalCase
      rw [if_neg h1, if_neg h2, if_neg h3, if_neg h4, if_pos h5]
    rw [e]; decide
  by_cases h6 : toUpperGo field = S "SHA512"
  · have e : canonicalCase field = S "SHA512" := by
      unfold canonicalCase
      rw [if_neg h1, if_neg h2, if_neg h3, if_neg h4, if_neg h5, if_pos h6]
    rw [e]; decide
  by_cases h7 : toUpperGo field = S "MD5SUM"
  · have e : canonicalCase field = S "MD5Sum" := by
      unfold canonicalCase
      rw [if_neg h1, if_neg h2, if_neg h3, if_neg h4, if_neg h5, if_neg h6,
        if_pos h7]
    rw [e]; decide
  by_cases h8 : toUpperGo field = S "NOTAUTOMATIC"
  · have e : canonicalCase field = S "NotAutomatic" := by
      unfold canonicalCase
      rw [if_neg h1, if_neg h2, if_neg h3, if_neg h4, if_neg h5, if_neg h6,
        if_neg h7, if_pos h8]
    rw [e]; decide
  by_cases h9 : toUpperGo field = S "BUTAUTOMATICUPGRADES"
  · have e : canonicalCase field = S "ButAutomaticUpgrades" := by
      unfold canonicalCase
      rw [if_neg h1, if_neg h2, if_neg h3, if_neg h4, if_neg h5, if_neg h6,
        if_neg h7, if_neg h8, if_pos h9]
    rw [e]; decide
  rw [cc_of_title h1 h2 h3 h4 h5 h6 h7 h8 h9]
  have hup : toUpperGo (titleCaseGo field true) = toUpperGo field :=
    toUpperGo_titleCaseGo field true
  by_cases g1 : canonicalOrderRelease.contains (titleCaseGo field true) = true
  · rw [cc_of_rel g1]
  by_cases g2 : canonicalOrderBinary.contains (titleCaseGo field true) = true
  · rw [cc_of_bin g1 g2]
  by_cases g3 : canonicalOrderSource.contains (titleCaseGo field true) = true
  · rw [cc_of_src g1 g2 g3]
  rw [cc_of_title g1 g2 g3 (by rw [hup]; exact h4) (by rw [hup]; exact h5)
    (by rw [hup]; exact h6) (by rw [hup]; exact h7) (by rw [hup]; exact h8)
    (by rw [hup]; exact h9)]
  exact titleCaseGo_idem field true

set_option maxHeartbeats 2000000 in
/-- C9: isMultilineField classifies the empty name, Description, Files,
Changes, Checksums-Sha1/256/512 and Package-List as multi-line regardless of
the release flag; MD5Sum, SHA1, SHA256 and SHA512 as multi-line exactly when
isRelease holds; and every other field name as single-line. -/
theorem C9_isMultilineField_classification (field : Str) (isRelease : Bool) :
    isMultilineField field isRelease =
      (decide (field = S "") || decide (field = S "Description") ||
       decide (field = S "Files") || decide (field = S "Changes") ||
       decide (field = S "Checksums-Sha1") ||
       decide (field = S "Checksums-Sha256") ||
       decide (field = S "Checksums-Sha512") ||
       decide (field = S "Package-List") ||
       (isRelease &&
         (decide (field = S "MD5Sum") || decide (field = S "SHA1") ||
          decide (field = S "SHA256") || decide (field = S "SHA512")))) := by
  unfold isMultilineField
  split_ifs with h1 h2 h3 h4 h5 h6 h7 h8 h9 h10 h11 h12
  · rw [h1]; cases isRelease <;> decide
  · rw [h2]; cases isRelease <;> decide
  · rw [h3]; cases isRelease <;> decide
  · rw [h4]; cases isRelease <;> decide
  · rw [h5]; cases isRelease <;> decide
  · rw [h6]; cases isRelease <;> decide
  · rw [h7]; cases isRelease <;> decide
  · rw [h8]; cases isRelease <;> decide
  · rw [h9]; cases isRelease <;> decide
  · rw [h10]; cases isRelease <;> decide
  · rw [h11]; cases isRelease <;> decide
  · rw [h12]; cases isRelease <;> decide
  · simp [h1, h2, h3, h4, h5, h6, h7, h8, h9, h10, h11, h12]

theorem splitOnChar_ne_nil (sep : Char) (s : Str) : splitOnChar sep s ≠ [] := by
  cases s with
  | nil => simp [splitOnChar]
  | cons c rest =>
    unfold splitOnChar
    cases h : splitOnChar sep rest with
    | nil => simp
    | cons g gs => by_cases hc : c = sep <;> simp [hc]

/-- C7: parseDependencies returns the comma-split, trimmed segments of the
field value when the trimmed value is non-empty, and an absent (nil) list,
never a present-but-empty one, when the field is missing, empty or white
space only; the result is fully determined by splitting and trimming. -/
theorem C7_parseDependencies_split_or_absent (input : Stanza) (key : Str) :
    ((parseDependencies input key).1 =
      if trimGo (input.get key) = [] then none
      else some ((splitOnChar ',' (trimGo (input.get key))).map trimGo))
    ∧ (∀ l, (parseDependencies input key).1 = some l → l ≠ []) := by
  have part1 : (parseDependencies input key).1 =
      if trimGo (input.get key) = [] then none
      else some ((splitOnChar ',' (trimGo (input.get key))).map trimGo) := by
    unfold parseDependencies
    by_cases h0 : input.get key = []
    · rw [if_pos h0]
      rw [h0]
      rw [if_pos (show trimGo ([] : Str) = [] from rfl)]
    · rw [if_neg h0]
      by_cases h1 : trimGo (input.get key) = []
      · rw [if_pos h1]
        simp [h1]
      · rw [if_neg h1]
        simp [h1]
  refine ⟨part1, ?_⟩
  intro l hl
  rw [part1] at hl
  by_cases h1 : trimGo (input.get key) = []
  · rw [if_pos h1] at hl; exact absurd hl (by simp)
  · rw [if_neg h1] at hl
    have : l = (splitOnChar ',' (trimGo (input.get key))).map trimGo := by
      injection hl.symm
    rw [this]
    intro hmap
    exact splitOnChar_ne_nil ',' (trimGo (input.get key)) (List.map_eq_nil_iff.mp hmap)

example : hexStr 0xdeadbeef = S "deadbeef" := by decide
example : hexStr 0 = S "0" := by decide
example : sprintfHex08 (2 ^ 32) = S "100000000" := by decide

theorem hexAux_append (fuel : Nat) : ∀ n acc, hexAux fuel n acc = hexAux fuel n [] ++ acc := by
  induction fuel with
  | zero => intro n acc; rfl
  | succ fuel ih =>
    intro n acc
    unfold hexAux
    by_cases h : n < 16
    · rw [if_pos h, if_pos h]; rfl
    · rw [if_neg h, if_neg h, ih (n / 16) (hexDigitChar (n % 16) :: acc),
        ih (n / 16) [hexDigitChar (n % 16)]]
      simp

theorem div16_pow_bound {n k : Nat} (h : n < 16 ^ (k + 1)) : n / 16 < 16 ^ k := by
  rw [Nat.div_lt_iff_lt_mul (by omega : 0 < 16)]
  calc n < 16 ^ (k + 1) := h
  _ = 16 ^ k * 16 := by rw [pow_succ]

theorem hexAux_fuel_irrel : ∀ fuel1 fuel2 n acc, 1 ≤ fuel1 → 1 ≤ fuel2 →
    n < 16 ^ fuel1 → n < 16 ^ fuel2 → hexAux fuel1 n acc = hexAux fuel2 n acc := by
  intro fuel1
  induction fuel1 with
  | zero => omega
  | succ fuel ih =>
    intro fuel2 n acc _ h2 hb1 hb2
    cases fuel2 with
    | zero => omega
    | succ fuel2 =>
      unfold hexAux
      by_cases h : n < 16
      · rw [if_pos h, if_pos h]
      · rw [if_neg h, if_neg h]
        have hf : 1 ≤ fuel := by
          by_contra hf0
          have : fuel = 0 := by omega
          subst this
          simp at hb1
          omega
        have hf2 : 1 ≤ fuel2 := by
          by_contra hf0
          have : fuel2 = 0 := by omega
          subst this
          simp at hb2
          omega
        exact ih fuel2 (n / 16) _ hf hf2 (div16_pow_bound hb1) (div16_pow_bound hb2)

theorem hexStr_small {n : Nat} (h : n < 16) : hexStr n = [hexDigitChar n] := by
  unfold hexStr
  rw [show (64 : Nat) = 63 + 1 from rfl]
  unfold hexAux
  rw [if_pos h]

theorem hexStr_step {n : Nat} (h : 16 ≤ n) (hb : n < 16 ^ 64) :
    hexStr n = hexStr (n / 16) ++ [hexDigitChar (n % 16)] := by
  unfold hexStr
  conv_lhs => rw [show (64 : Nat) = 63 + 1 from rfl]
  unfold hexAux
  rw [if_neg (by omega)]
  rw [hexAux_append]
  congr 1
  exact hexAux_fuel_irrel 63 64 (n / 16) [] (by omega) (by omega)
    (div16_pow_bound hb)
    (lt_trans (div16_pow_bound hb) (Nat.pow_lt_pow_right (by omega) (by omega)))

theorem hexStr_length_le : ∀ k, 1 ≤ k → k ≤ 64 → ∀ n, n < 16 ^ k → (hexStr n).length ≤ k := by
  intro k
  induction k with
  | zero => omega
  | succ k ih =>
    intro _ hk64 n hn
    by_cases h : n < 16
    · rw [hexStr_small h]; simp
    · have hk : 1 ≤ k := by
        by_contra hk0
        have : k = 0 := by omega
        subst this
        simp at hn
        omega
      have hb64 : n < 16 ^ 64 :=
        lt_of_lt_of_le hn (Nat.pow_le_pow_right (by omega) (by omega))
      rw [hexStr_step (by omega) hb64]
      have := ih hk (by omega) (n / 16) (div16_pow_bound hn)
      simp only [List.length_append, List.length_cons, List.length_nil]
      omega

/-- C3 counterexample: for a package with FilesHash equal to 2 to the 32,
the key renders the hash with nine hex digits, so the key is not of the
claimed shape identifier-plus-exactly-eight-hex-digits. -/
theorem C3_counterexample :
    Package.Key
      { Name := S "a", Version := S "1", Architecture := S "x",
        SourceArchitecture := [], Source := [], Provides := none,
        FilesHash := 2 ^ 32, IsInstaller := false, IsSource := false,
        IsUdeb := false, V06Plus := true,
        deps := ⟨none, none, none, none, none, none⟩, extra := 0, files := [] }
      (S "") = S "Px a 1 100000000"
    ∧ (S "Px a 1 100000000").length ≠ (S "Px a 1 ").length + 8 := by
  constructor
  · decide
  · decide

/-- C3 amended: for every V06Plus package, Key is the prefix, P, the
architecture, name and version separated by spaces, followed by the
lowercase hex rendering of FilesHash left-padded with zeros to a minimum of
eight digits (exactly eight only when FilesHash is below 2 to the 32), and
ShortKey is the same identifier without the trailing hash part. -/
theorem C3_amended (p : Package) (pfx : Str) (hv : p.V06Plus = true) :
    p.Key pfx = pfx ++ S "P" ++ p.Architecture ++ S " " ++ p.Name ++ S " "
        ++ p.Version ++ S " " ++ sprintfHex08 p.FilesHash
    ∧ p.Key pfx = p.ShortKey pfx ++ S " " ++ sprintfHex08 p.FilesHash
    ∧ p.ShortKey pfx = pfx ++ S "P" ++ p.Architecture ++ S " " ++ p.Name
        ++ S " " ++ p.Version
    ∧ 8 ≤ (sprintfHex08 p.FilesHash).length
    ∧ (p.FilesHash < 2 ^ 32 → (sprintfHex08 p.FilesHash).length = 8) := by
  refine ⟨?_, ?_, rfl, ?_, ?_⟩
  · unfold Package.Key
    rw [if_pos hv]
  · unfold Package.Key Package.ShortKey
    rw [if_pos hv]
  · unfold sprintfHex08
    by_cases h : (hexStr p.FilesHash).length < 8
    · rw [if_pos h]
      simp only [List.length_append, List.length_replicate]
      omega
    · rw [if_neg h]
      simp only [List.nil_append]
      omega
  · intro h32
    unfold sprintfHex08
    have hle : (hexStr p.FilesHash).length ≤ 8 := by
      apply hexStr_length_le 8 (by omega) (by omega)
      calc p.FilesHash < 2 ^ 32 := h32
      _ = 16 ^ 8 := by norm_num
    by_cases h : (hexStr p.FilesHash).length < 8
    · rw [if_pos h]
      simp only [List.length_append, List.length_replicate]
      omega
    · rw [if_neg h]
      simp only [List.nil_append]
      omega

/-- C3 witness: the amended theorem applied to a concrete package. -/
theorem C3_amended_witness :
    (Package.Key
        { Name := S "a", Version := S "1", Architecture := S "x",
          SourceArchitecture := [], Source := [], Provides := none,
          FilesHash := 5, IsInstaller := false, IsSource := false,
          IsUdeb := false, V06Plus := true,
          deps := ⟨none, none, none, none, none, none⟩, extra := 0,
          files := [] } (S "")
      = Package.ShortKey
        { Name := S "a", Version := S "1", Architecture := S "x",
          SourceArchitecture := [], Source := [], Provides := none,
          FilesHash := 5, IsInstaller := false, IsSource := false,
          IsUdeb := false, V06Plus := true,
          deps := ⟨none, none, none, none, none, none⟩, extra := 0,
          files := [] } (S "") ++ S " " ++ sprintfHex08 5)
    ∧ (sprintfHex08 5).length = 8 := by
  have h := C3_amended
    { Name := S "a", Version := S "1", Architecture := S "x",
      SourceArchitecture := [], Source := [], Provides := none,
      FilesHash := 5, IsInstaller := false, IsSource := false,
      IsUdeb := false, V06Plus := true,
      deps := ⟨none, none, none, none, none, none⟩, extra := 0,
      files := [] } (S "") rfl
  exact ⟨h.2.1, h.2.2.2.2 (by norm_num)⟩

theorem find?_del_ne (s : Stanza) (f k : Str) (h : k ≠ f) :
    (s.del f).find? (fun kv => kv.1 == k) = s.find? (fun kv => kv.1 == k) := by
  induction s with
  | nil => rfl
  | cons kv rest ih =>
    unfold Stanza.del at ih ⊢
    rw [List.filter_cons]
    by_cases hk : kv.1 = f
    · rw [if_neg (by simp [hk])]
      rw [List.find?_cons_of_neg _ (by simp [hk]; intro e; exact h e.symm)]
      exact ih
    · rw [if_pos (by simp [hk])]
      by_cases hik : kv.1 = k
      · rw [List.find?_cons_of_pos _ (by simp [hik]),
          List.find?_cons_of_pos _ (by simp [hik])]
      · rw [List.find?_cons_of_neg _ (by simp [hik]),
          List.find?_cons_of_neg _ (by simp [hik])]
        exact ih

theorem get_del_ne (s : Stanza) (f k : Str) (h : k ≠ f) :
    (s.del f).get k = s.get k := by
  unfold Stanza.get
  rw [find?_del_ne s f k h]

theorem hasKey_del_ne (s : Stanza) (f k : Str) (h : k ≠ f) :
    (s.del f).hasKey k = s.hasKey k := by
  unfold Stanza.hasKey
  rw [find?_del_ne s f k h]

theorem hasKey_false_key_ne (s : Stanza) (f : Str) (h : s.hasKey f = false) :
    ∀ kv ∈ s, kv.1 ≠ f := by
  intro kv hm he
  unfold Stanza.hasKey at h
  have hn : s.find? (fun kv => kv.1 == f) = none := by
    cases hf : s.find? (fun kv => kv.1 == f) with
    | none => rfl
    | some x => rw [hf] at h; simp at h
  have := List.find?_eq_none.mp hn kv hm
  simp [he] at this


theorem writeCanonicalPass_spec (rel : Bool) :
    ∀ (order : List Str) (s : Stanza), order.Nodup →
      writeCanonicalPass order s rel =
        (((order.filter (fun f => s.hasKey f)).map
            (fun f => writeField f (s.get f) rel)).flatten,
         s.filter (fun kv => ¬ order.contains kv.1)) := by
  intro order
  induction order with
  | nil =>
    intro s _
    unfold writeCanonicalPass
    simp
  | cons f rest ih =>
    intro s hnd
    have hf : f ∉ rest := (List.nodup_cons.mp hnd).1
    have hrest : rest.Nodup := (List.nodup_cons.mp hnd).2
    unfold writeCanonicalPass
    by_cases h : s.hasKey f = true
    · rw [if_pos h, ih (s.del f) hrest]
      rw [List.filter_cons_of_pos (by simpa using h)]
      rw [List.map_cons, List.flatten_cons]
      have hmapeq :
          (rest.filter (fun g => (s.del f).hasKey g)).map
              (fun g => writeField g ((s.del f).get g) rel)
            = (rest.filter (fun g => s.hasKey g)).map
              (fun g => writeField g (s.get g) rel) := by
        rw [List.filter_congr (fun g hg => by
          rw [hasKey_del_ne s f g (fun e => hf (e ▸ hg))])]
        apply List.map_congr_left
        intro g hg
        have hgr : g ∈ rest := List.mem_of_mem_filter hg
        rw [get_del_ne s f g (fun e => hf (e ▸ hgr))]
      rw [hmapeq]
      have hremeq :
          (s.del f).filter (fun kv => ¬ rest.contains kv.1)
            = s.filter (fun kv => ¬ (f :: rest).contains kv.1) := by
        unfold Stanza.del
        rw [List.filter_filter]
        apply List.filter_congr
        intro kv _
        by_cases hc1 : kv.1 = f <;> by_cases hc2 : rest.contains kv.1 = true <;>
          simp [hc1, hc2, List.contains_cons]
      rw [hremeq]
    · rw [if_neg h, ih s hrest]
      have hfalse : s.hasKey f = false := by
        cases hh : s.hasKey f
        · rfl
        · exact absurd hh h
      rw [List.filter_cons_of_neg (by simpa using hfalse)]
      have hremeq :
          s.filter (fun kv => ¬ rest.contains kv.1)
            = s.filter (fun kv => ¬ (f :: rest).contains kv.1) := by
        apply List.filter_congr
        intro kv hm
        have hne := hasKey_false_key_ne s f hfalse kv hm
        by_cases hc2 : rest.contains kv.1 = true <;>
          simp [hne, hc2, List.contains_cons]
      rw [hremeq]

theorem keys_filter_key (p : Str → Bool) (s : Stanza) :
    Stanza.keys (s.filter (fun kv => p kv.1)) = s.keys.filter p := by
  induction s with
  | nil => rfl
  | cons kv rest ih =>
    unfold Stanza.keys at ih ⊢
    rw [List.filter_cons, List.map_cons, List.filter_cons]
    by_cases h : p kv.1 = true
    · rw [if_pos h, if_pos h, List.map_cons, ih]
    · rw [if_neg h, if_neg h, ih]

theorem get_filter_key (p : Str → Bool) (s : Stanza) (k : Str)
    (hk : p k = true) :
    Stanza.get (s.filter (fun kv => p kv.1)) k = s.get k := by
  induction s with
  | nil => rfl
  | cons kv rest ih =>
    rw [List.filter_cons]
    by_cases h : p kv.1 = true
    · rw [if_pos h]
      unfold Stanza.get
      by_cases hik : kv.1 = k
      · rw [List.find?_cons_of_pos _ (by simp [hik]),
          List.find?_cons_of_pos _ (by simp [hik])]
      · rw [List.find?_cons_of_neg _ (by simp [hik]),
          List.find?_cons_of_neg _ (by simp [hik])]
        exact ih
    · rw [if_neg h]
      have hik : kv.1 ≠ k := by
        intro e
        rw [e] at h
        exact h hk
      unfold Stanza.get
      rw [List.find?_cons_of_neg _ (by simp [hik])]
      exact ih

theorem mem_insertSorted (x a : Str) (l : List Str) :
    a ∈ insertSorted x l ↔ a = x ∨ a ∈ l := by
  induction l with
  | nil => simp [insertSorted]
  | cons y ys ih =>
    unfold insertSorted
    by_cases h : strLe x y = true
    · rw [if_pos h]
      simp
    · rw [if_neg h]
      simp only [List.mem_cons, ih]
      tauto

theorem mem_sortStrings (a : Str) (l : List Str) :
    a ∈ sortStrings l ↔ a ∈ l := by
  induction l with
  | nil => simp [sortStrings]
  | cons x xs ih =>
    unfold sortStrings
    rw [mem_insertSorted, ih]
    simp

theorem writeExtraPass_spec (rel : Bool) (s : Stanza) (order : List Str) :
    writeExtraPass (s.filter (fun kv => ¬ order.contains kv.1)) rel
      = ((sortStrings (s.keys.filter (fun k => ¬ order.contains k))).map
          (fun f => writeField f (s.get f) rel)).flatten := by
  unfold writeExtraPass
  rw [keys_filter_key (fun k => ¬ order.contains k) s]
  congr 1
  apply List.map_congr_left
  intro f hf
  have hfmem : f ∈ s.keys.filter (fun k => ¬ order.contains k) :=
    (mem_sortStrings f _).mp hf
  have hp := (List.mem_filter.mp hfmem).2
  rw [get_filter_key (fun k => ¬ order.contains k) s f hp]

theorem selectedOrder_nodup (a b c : Bool) : (selectedOrder a b c).Nodup := by
  unfold selectedOrder
  cases a <;> cases b <;> cases c <;> decide

/-- C4: WriteTo first emits, in canonical-list order, exactly the canonical
fields present in the stanza, each with its original value and each only
once, and then, unless in installer mode, every remaining field in sorted
alphabetical key order; in installer mode no non-canonical field is
emitted. -/
theorem C4_WriteTo_order (s : Stanza) (isSource isRelease isInstaller : Bool) :
    (s.WriteTo isSource isRelease isInstaller).1 =
      (((selectedOrder isSource isRelease isInstaller).filter
            (fun f => s.hasKey f)).map
          (fun f => writeField f (s.get f) isRelease)).flatten
      ++ (if isInstaller then []
          else ((sortStrings (s.keys.filter
                (fun k => ¬ (selectedOrder isSource isRelease isInstaller).contains k))).map
              (fun f => writeField f (s.get f) isRelease)).flatten) := by
  unfold Stanza.WriteTo
  rw [writeCanonicalPass_spec isRelease _ s (selectedOrder_nodup _ _ _)]
  cases isInstaller with
  | false =>
    rw [if_pos (by decide)]
    rw [writeExtraPass_spec isRelease s (selectedOrder isSource isRelease false)]
    rfl
  | true =>
    rw [if_neg (by decide)]
    simp

theorem splitAtChar_not_mem {c : Char} {l : Str} (h : c ∉ l) :
    splitAtChar c l = none := by
  induction l with
  | nil => rfl
  | cons x xs ih =>
    have hx : ¬ (x = c) := by
      intro e
      exact h (by rw [← e]; exact List.mem_cons_self x xs)
    have hxs : c ∉ xs := fun hm => h (List.mem_cons_of_mem x hm)
    simp [splitAtChar, hx, ih hxs]

theorem splitAtChar_first {c : Char} (post : Str) :
    ∀ pre, c ∉ pre → splitAtChar c (pre ++ c :: post) = some (pre, post) := by
  intro pre
  induction pre with
  | nil =>
    intro _
    simp [splitAtChar]
  | cons x xs ih =>
    intro h
    have hx : ¬ (x = c) := by
      intro e
      exact h (by rw [← e]; exact List.mem_cons_self x xs)
    have hxs : c ∉ xs := fun hm => h (List.mem_cons_of_mem x hm)
    rw [List.cons_append]
    simp [splitAtChar, hx, ih hxs]

theorem contStart_ne_nil {l : Line} (h : contStart l = true) : l ≠ [] := by
  intro e
  subst e
  simp [contStart] at h

theorem set_singleton_same (k w w2 : Str) :
    Stanza.set [(k, w)] k w2 = [(k, w2)] := by
  unfold Stanza.set
  rw [if_pos rfl]

theorem length_field_line_pos (f v : Str) : ((f ++ ':' :: v) : Str).length ≠ 0 := by
  simp

theorem readLoop_nil (rel inst : Bool) (stanza : Stanza) (lf : Str)
    (ml : Bool) (lv : Str) :
    readLoop rel inst stanza lf ml lv [] = ⟨stanza, [], none⟩ := rfl

theorem readLoop_tooLong (rel inst : Bool) (stanza : Stanza) (lf : Str)
    (ml : Bool) (lv : Str) (l : Line) (rest : List Line)
    (h : MaxFieldSize ≤ l.length) :
    readLoop rel inst stanza lf ml lv (l :: rest) =
      ⟨stanza, rest, some .tooLong⟩ := by
  unfold readLoop
  rw [if_pos h]

theorem readLoop_blank (rel inst : Bool) (stanza : Stanza) (lf : Str)
    (ml : Bool) (lv : Str) (rest : List Line) :
    readLoop rel inst stanza lf ml lv ([] :: rest) =
      if stanza.emptyB then readLoop rel inst stanza lf ml lv rest
      else ⟨stanza, rest, none⟩ := by
  conv_lhs => unfold readLoop
  rw [if_neg (by simp [MaxFieldSize])]
  simp only [List.length_nil]
  rw [if_pos trivial]
  by_cases h : stanza.emptyB = true
  · rw [if_neg (by simp [h]), if_pos h]
  · rw [if_pos (by simp [h]), if_neg h]

theorem readLoop_cont (rel inst : Bool) (stanza : Stanza) (lf : Str)
    (ml : Bool) (lv : Str) (l : Line) (rest : List Line)
    (hc : (contStart l || inst) = true) (hnil : l ≠ [])
    (hlen : l.length < MaxFieldSize) :
    readLoop rel inst stanza lf ml lv (l :: rest) =
      (if ml then
        readLoop rel inst (stanza.set lf (lv ++ l ++ S "\n")) lf ml
          (lv ++ l ++ S "\n") rest
      else
        readLoop rel inst (stanza.set lf (lv ++ S " " ++ trimGo l)) lf ml
          (lv ++ S " " ++ trimGo l) rest) := by
  conv_lhs => unfold readLoop
  rw [if_neg (by omega), if_neg (by simpa using hnil), if_pos hc]

theorem readLoop_field (rel inst : Bool) (stanza : Stanza) (lf : Str)
    (ml : Bool) (lv : Str) (f v : Str) (rest : List Line)
    (hfc : ':' ∉ f) (hs : (contStart (f ++ ':' :: v) || inst) = false)
    (hlen : ((f ++ ':' :: v) : Str).length < MaxFieldSize) :
    readLoop rel inst stanza lf ml lv ((f ++ ':' :: v) :: rest) =
      readLoop rel inst
        (stanza.set (canonicalCase f)
          (fieldStartValue (isMultilineField (canonicalCase f) rel) v))
        (canonicalCase f) (isMultilineField (canonicalCase f) rel)
        (fieldStartValue (isMultilineField (canonicalCase f) rel) v) rest := by
  conv_lhs => unfold readLoop
  rw [if_neg (by omega), if_neg (by simp), if_neg (by simp [hs]),
    splitAtChar_first v f hfc]

theorem readLoop_malformed (rel inst : Bool) (stanza : Stanza) (lf : Str)
    (ml : Bool) (lv : Str) (l : Line) (rest : List Line)
    (hs : (contStart l || inst) = false) (hnil : l ≠ []) (hcol : ':' ∉ l)
    (hlen : l.length < MaxFieldSize) :
    readLoop rel inst stanza lf ml lv (l :: rest) =
      ⟨stanza, rest, some .malformedStanza⟩ := by
  conv_lhs => unfold readLoop
  rw [if_neg (by omega), if_neg (by simpa using hnil), if_neg (by simp [hs]),
    splitAtChar_not_mem hcol]

theorem set_nil (k v : Str) : Stanza.set [] k v = [(k, v)] := rfl

theorem readLoop_conts (rel : Bool) (cn : Str) (ml : Bool)
    (tail : List Line) :
    ∀ (conts : List Line) (w : Str),
      (∀ l ∈ conts, contStart l = true ∧ l.length < MaxFieldSize) →
      ∃ w2, readLoop rel false [(cn, w)] cn ml w (conts ++ tail) =
        readLoop rel false [(cn, w2)] cn ml w2 tail := by
  intro conts
  induction conts with
  | nil => intro w _; exact ⟨w, rfl⟩
  | cons c cs ih =>
    intro w h
    have hc := h c (List.mem_cons_self c cs)
    rw [List.cons_append]
    rw [readLoop_cont rel false [(cn, w)] cn ml w c _ (by simp [hc.1])
      (contStart_ne_nil hc.1) hc.2]
    by_cases hml : ml = true
    · rw [if_pos hml, set_singleton_same]
      subst hml
      exact ih (w ++ c ++ S "\n") (fun l hl => h l (List.mem_cons_of_mem c hl))
    · rw [if_neg hml, set_singleton_same]
      exact ih (w ++ S " " ++ trimGo c) (fun l hl => h l (List.mem_cons_of_mem c hl))

/-- C10: a non-continuation line without a colon, arriving after a field
line of the same paragraph, makes ReadBufferedStanza return
ErrMalformedStanza while the caller-provided buffer keeps the field parsed
from the earlier line; only the ReadStanza wrapper discards the buffer and
returns no stanza alongside the error. -/
theorem C10_malformed_keeps_buffer (rel : Bool) (f v bad : Str)
    (rest : List Line)
    (hfc : ':' ∉ f) (hfs : contStart (f ++ ':' :: v) = false)
    (hflen : ((f ++ ':' :: v) : Str).length < MaxFieldSize)
    (hbc : ':' ∉ bad) (hbn : bad ≠ []) (hbs : contStart bad = false)
    (hblen : bad.length < MaxFieldSize) :
    ReadBufferedStanza rel false [] ((f ++ ':' :: v) :: bad :: rest) =
      ⟨[(canonicalCase f,
          fieldStartValue (isMultilineField (canonicalCase f) rel) v)],
        rest, some .malformedStanza⟩
    ∧ ReadStanza rel false ((f ++ ':' :: v) :: bad :: rest) =
        (none, rest, some .malformedStanza) := by
  have h1 : ReadBufferedStanza rel false [] ((f ++ ':' :: v) :: bad :: rest) =
      ⟨[(canonicalCase f,
          fieldStartValue (isMultilineField (canonicalCase f) rel) v)],
        rest, some .malformedStanza⟩ := by
    unfold ReadBufferedStanza
    rw [readLoop_field rel false [] [] false [] f v (bad :: rest)
      hfc (by simp [hfs]) hflen]
    rw [set_nil]
    rw [readLoop_malformed rel false _ _ _ _ bad rest (by simp [hbs]) hbn hbc
      hblen]
  refine ⟨h1, ?_⟩
  unfold ReadStanza
  rw [h1]

/-- C6: when two non-continuation field lines of one stanza canonicalise to
the same name, the parsed stanza has exactly one entry for that name, whose
value is the one started at the later line; the partial value accumulated
from the earlier occurrence (including its continuation lines) is
discarded. -/
theorem C6_later_field_occurrence_wins (rel : Bool) (n1 v1 n2 v2 : Str)
    (conts : List Line)
    (h1c : ':' ∉ n1) (h1s : contStart (n1 ++ ':' :: v1) = false)
    (h1len : ((n1 ++ ':' :: v1) : Str).length < MaxFieldSize)
    (hconts : ∀ l ∈ conts, contStart l = true ∧ l.length < MaxFieldSize)
    (h2c : ':' ∉ n2) (h2s : contStart (n2 ++ ':' :: v2) = false)
    (h2len : ((n2 ++ ':' :: v2) : Str).length < MaxFieldSize)
    (hcc : canonicalCase n1 = canonicalCase n2) :
    ReadBufferedStanza rel false []
        ((n1 ++ ':' :: v1) :: (conts ++ [n2 ++ ':' :: v2])) =
      ⟨[(canonicalCase n2,
          fieldStartValue (isMultilineField (canonicalCase n2) rel) v2)],
        [], none⟩ := by
  unfold ReadBufferedStanza
  rw [readLoop_field rel false [] [] false [] n1 v1 _ h1c
    (by simp [h1s]) h1len]
  rw [set_nil]
  obtain ⟨w2, hw⟩ := readLoop_conts rel (canonicalCase n1)
    (isMultilineField (canonicalCase n1) rel) [n2 ++ ':' :: v2] conts
    (fieldStartValue (isMultilineField (canonicalCase n1) rel) v1) hconts
  rw [hw]
  rw [readLoop_field rel false [(canonicalCase n1, w2)] (canonicalCase n1)
    (isMultilineField (canonicalCase n1) rel) w2 n2 v2 [] h2c
    (by simp [h2s]) h2len]
  rw [readLoop_nil, hcc, set_singleton_same]

/-- C10 witness: concrete malformed input evaluated. -/
theorem C10_malformed_keeps_buffer_witness :
    ReadBufferedStanza false false [] [S "Package: foo", S "garbage"] =
      ⟨[(S "Package", S "foo")], [], some .malformedStanza⟩
    ∧ ReadStanza false false [S "Package: foo", S "garbage"] =
        (none, [], some .malformedStanza) :=
  C10_malformed_keeps_buffer false (S "Package") (S " foo") (S "garbage") []
    (by decide) (by decide) (by decide) (by decide) (by decide) (by decide)
    (by decide)

/-- C6 witness: two spellings of the same canonical field name, with a
continuation line after the first; the later occurrence wins. -/
theorem C6_later_field_occurrence_wins_witness :
    ReadBufferedStanza false false []
        [S "md5sum: aaa", S " cont", S "Md5sum: bbb"] =
      ⟨[(S "MD5Sum", S "bbb")], [], none⟩ :=
  C6_later_field_occurrence_wins false (S "md5sum") (S " aaa") (S "Md5sum")
    (S " bbb") [S " cont"] (by decide) (by decide) (by decide) (by decide)
    (by decide) (by decide) (by decide) (by decide)

theorem readLoop_no_tooLong : ∀ (lines : List Line),
    (∀ l ∈ lines, l.length < MaxFieldSize) →
    ∀ (rel inst : Bool) (stanza : Stanza) (lf : Str) (ml : Bool) (lv : Str),
      (readLoop rel inst stanza lf ml lv lines).err ≠ some .tooLong := by
  intro lines
  induction lines with
  | nil =>
    intro _ rel inst stanza lf ml lv
    rw [readLoop_nil]
    simp
  | cons l rest ih =>
    intro h rel inst stanza lf ml lv
    have hl := h l (List.mem_cons_self l rest)
    have hr : ∀ x ∈ rest, x.length < MaxFieldSize :=
      fun x hx => h x (List.mem_cons_of_mem l hx)
    conv_lhs => unfold readLoop
    rw [if_neg (by omega)]
    by_cases hb : l.length = 0
    · rw [if_pos hb]
      by_cases he : stanza.emptyB = true
      · rw [if_neg (by simp [he])]
        exact ih hr rel inst stanza lf ml lv
      · rw [if_pos (by simp [he])]
        simp
    · rw [if_neg hb]
      by_cases hc : (contStart l || inst) = true
      · rw [if_pos hc]
        by_cases hm : ml = true
        · rw [if_pos hm]
          exact ih hr rel inst _ lf ml _
        · rw [if_neg hm]
          exact ih hr rel inst _ lf ml _
      · rw [if_neg hc]
        cases hsp : splitAtChar ':' l with
        | none => simp
        | some p =>
          obtain ⟨fb, vb⟩ := p
          simp only []
          exact ih hr rel inst _ _ _ _

/-- C2 amended: the MaxFieldSize cap is enforced per input line (scanner
token), not per assembled field value: when every line fits in the scanner
buffer the reader never fails with the too-long error, and a line that does
not fit is an immediate fatal read error. -/
theorem C2_cap_is_per_line (rel inst : Bool) :
    (∀ (lines : List Line), (∀ l ∈ lines, l.length < MaxFieldSize) →
        (∀ stanza, (ReadBufferedStanza rel inst stanza lines).err ≠ some .tooLong)
        ∧ (ReadStanza rel inst lines).2.2 ≠ some .tooLong)
    ∧ (∀ (l : Line) (rest : List Line), MaxFieldSize ≤ l.length →
        ReadStanza rel inst (l :: rest) = (none, rest, some .tooLong)) := by
  constructor
  · intro lines h
    constructor
    · intro stanza
      unfold ReadBufferedStanza
      exact readLoop_no_tooLong lines h rel inst stanza [] inst []
    · unfold ReadStanza ReadBufferedStanza
      cases he : (readLoop rel inst [] [] inst [] lines).err with
      | none =>
        simp only [he]
        by_cases hb : ¬ (readLoop rel inst [] [] inst [] lines).buf.emptyB = true
        · rw [if_pos hb]
          simp
        · rw [if_neg hb]
          simp
      | some e =>
        have hnt := readLoop_no_tooLong lines h rel inst [] [] inst []
        rw [he] at hnt
        simp only [he]
        simpa using hnt
  · intro l rest hlen
    unfold ReadStanza ReadBufferedStanza
    rw [readLoop_tooLong rel inst [] [] inst [] l rest hlen]

/-- C2 witness: a short stanza is read without the too-long error, and a
single line of MaxFieldSize bytes is an immediate too-long error. -/
theorem C2_cap_is_per_line_witness :
    (ReadStanza false false [S "A: b"]).2.2 ≠ some .tooLong
    ∧ ReadStanza false false [List.replicate MaxFieldSize 'a'] =
        (none, [], some .tooLong) :=
  ⟨((C2_cap_is_per_line false false).1 [S "A: b"] (by decide)).2,
   (C2_cap_is_per_line false false).2 (List.replicate MaxFieldSize 'a') []
     (by rw [List.length_replicate])⟩



theorem emptyB_singleton_false (k w : Str) (hw : w ≠ []) :
    Stanza.emptyB [(k, w)] = false := by
  unfold Stanza.emptyB
  simp [hw]

theorem ReadStanza_of_buffered (rel inst : Bool) (lines : List Line)
    (st : Stanza) (rest : List Line)
    (h : ReadBufferedStanza rel inst [] lines = ⟨st, rest, none⟩)
    (hne : st.emptyB = false) :
    ReadStanza rel inst lines = (some st, rest, none) := by
  unfold ReadStanza
  rw [h]
  simp [hne]

/-- C2 counterexample: a Description field assembled from three in-cap
continuation lines of one MiB each is read successfully, and the single
resulting field value exceeds MaxFieldSize, refuting the claim that a field
value above the cap is a fatal read error. -/
theorem C2_counterexample :
    ReadStanza false false
        ((S "Description" ++ ':' :: []) :: (' ' :: List.replicate (1024 * 1024) 'a') :: (' ' :: List.replicate (1024 * 1024) 'a') :: (' ' :: List.replicate (1024 * 1024) 'a') :: []) =
      (some [(S "Description", ([] ++ (' ' :: List.replicate (1024 * 1024) 'a') ++ S "\n" ++ (' ' :: List.replicate (1024 * 1024) 'a') ++ S "\n" ++ (' ' :: List.replicate (1024 * 1024) 'a') ++ S "\n"))], [], none)
    ∧ MaxFieldSize < (([] ++ (' ' :: List.replicate (1024 * 1024) 'a') ++ S "\n" ++ (' ' :: List.replicate (1024 * 1024) 'a') ++ S "\n" ++ (' ' :: List.replicate (1024 * 1024) 'a') ++ S "\n") : Str).length := by
  have hnl : (S "\n" : Str) = ['\n'] := rfl
  have hW : (([] ++ (' ' :: List.replicate (1024 * 1024) 'a') ++ S "\n" ++ (' ' :: List.replicate (1024 * 1024) 'a') ++ S "\n" ++ (' ' :: List.replicate (1024 * 1024) 'a') ++ S "\n") : Str).length = 3 * (1024 * 1024) + 6 := by
    rw [hnl]
    repeat rw [List.length_append]
    repeat rw [List.length_cons]
    repeat rw [List.length_replicate]
    rfl
  have hlenc : ((' ' :: List.replicate (1024 * 1024) 'a') : Str).length < MaxFieldSize := by
    rw [List.length_cons, List.length_replicate]
    decide
  have e1 : canonicalCase (S "Description") = S "Description" := by decide
  have e2 : isMultilineField (S "Description") false = true := by decide
  have e3 : fieldStartValue true ([] : Str) = [] := by decide
  have h1 := readLoop_field false false [] [] false [] (S "Description") []
      ((' ' :: List.replicate (1024 * 1024) 'a') :: (' ' :: List.replicate (1024 * 1024) 'a') :: (' ' :: List.replicate (1024 * 1024) 'a') :: []) (by decide) (by decide) (by decide)
  have h2 := readLoop_cont false false [(S "Description", [])]
      (S "Description") true [] (' ' :: List.replicate (1024 * 1024) 'a') ((' ' :: List.replicate (1024 * 1024) 'a') :: (' ' :: List.replicate (1024 * 1024) 'a') :: []) rfl
      (List.cons_ne_nil _ _) hlenc
  have h3 := readLoop_cont false false [(S "Description", ([] ++ (' ' :: List.replicate (1024 * 1024) 'a') ++ S "\n"))]
      (S "Description") true ([] ++ (' ' :: List.replicate (1024 * 1024) 'a') ++ S "\n") (' ' :: List.replicate (1024 * 1024) 'a') ((' ' :: List.replicate (1024 * 1024) 'a') :: []) rfl
      (List.cons_ne_nil _ _) hlenc
  have h4 := readLoop_cont false false [(S "Description", ([] ++ (' ' :: List.replicate (1024 * 1024) 'a') ++ S "\n" ++ (' ' :: List.replicate (1024 * 1024) 'a') ++ S "\n"))]
      (S "Description") true ([] ++ (' ' :: List.replicate (1024 * 1024) 'a') ++ S "\n" ++ (' ' :: List.replicate (1024 * 1024) 'a') ++ S "\n") (' ' :: List.replicate (1024 * 1024) 'a') [] rfl
      (List.cons_ne_nil _ _) hlenc
  have hs1 := set_singleton_same (S "Description") [] ([] ++ (' ' :: List.replicate (1024 * 1024) 'a') ++ S "\n")
  have hs2 := set_singleton_same (S "Description") ([] ++ (' ' :: List.replicate (1024 * 1024) 'a') ++ S "\n") ([] ++ (' ' :: List.replicate (1024 * 1024) 'a') ++ S "\n" ++ (' ' :: List.replicate (1024 * 1024) 'a') ++ S "\n")
  have hs3 := set_singleton_same (S "Description") ([] ++ (' ' :: List.replicate (1024 * 1024) 'a') ++ S "\n" ++ (' ' :: List.replicate (1024 * 1024) 'a') ++ S "\n") ([] ++ (' ' :: List.replicate (1024 * 1024) 'a') ++ S "\n" ++ (' ' :: List.replicate (1024 * 1024) 'a') ++ S "\n" ++ (' ' :: List.replicate (1024 * 1024) 'a') ++ S "\n")
  have hn := readLoop_nil false false [(S "Description", ([] ++ (' ' :: List.replicate (1024 * 1024) 'a') ++ S "\n" ++ (' ' :: List.replicate (1024 * 1024) 'a') ++ S "\n" ++ (' ' :: List.replicate (1024 * 1024) 'a') ++ S "\n"))]
      (S "Description") true ([] ++ (' ' :: List.replicate (1024 * 1024) 'a') ++ S "\n" ++ (' ' :: List.replicate (1024 * 1024) 'a') ++ S "\n" ++ (' ' :: List.replicate (1024 * 1024) 'a') ++ S "\n")
  have hWne : (([] ++ (' ' :: List.replicate (1024 * 1024) 'a') ++ S "\n" ++ (' ' :: List.replicate (1024 * 1024) 'a') ++ S "\n" ++ (' ' :: List.replicate (1024 * 1024) 'a') ++ S "\n") : Str) ≠ [] := by
    intro e
    rw [e, List.length_nil] at hW
    omega
  have hbuf : readLoop false false [] [] false []
      ((S "Description" ++ ':' :: []) :: (' ' :: List.replicate (1024 * 1024) 'a') :: (' ' :: List.replicate (1024 * 1024) 'a') :: (' ' :: List.replicate (1024 * 1024) 'a') :: []) =
      ⟨[(S "Description", ([] ++ (' ' :: List.replicate (1024 * 1024) 'a') ++ S "\n" ++ (' ' :: List.replicate (1024 * 1024) 'a') ++ S "\n" ++ (' ' :: List.replicate (1024 * 1024) 'a') ++ S "\n"))], [], none⟩ := by
    conv_lhs =>
      rw [h1]
      rw [set_nil, e1, e2, e3]
      rw [h2]
      rw [if_pos rfl]
      rw [hs1]
      rw [h3]
      rw [if_pos rfl]
      rw [hs2]
      rw [h4]
      rw [if_pos rfl]
      rw [hs3]
      rw [hn]
  constructor
  · exact ReadStanza_of_buffered false false _ _ []
      (by unfold ReadBufferedStanza; exact hbuf)
      (emptyB_singleton_false (S "Description") _ hWne)
  · rw [hW]
    unfold MaxFieldSize
    omega

/-- C1: evaluating the package constructor and Package.stanza at a concrete
control stanza: calling stanza changes the stored extra-fields stanza
(because the result starts as the stored map itself and the copy is taken
only at return), the returned stanza is a fresh allocation distinct from
the stored one, and mutating the returned stanza leaves the stored extra
stanza unchanged.  The first conjunct contradicts the claim that the stored
extra stanza is left unchanged. -/
theorem C1_stanza_mutates_stored_extra :
    Package.Extra (examplePackageBuild.2.stanza examplePackageBuild.1).1
        examplePackageBuild.2
      ≠ Package.Extra examplePackageBuild.1 examplePackageBuild.2
    ∧ (examplePackageBuild.2.stanza examplePackageBuild.1).2
        ≠ examplePackageBuild.2.extra
    ∧ Package.Extra
        (Store.setField (examplePackageBuild.2.stanza examplePackageBuild.1).1
          (examplePackageBuild.2.stanza examplePackageBuild.1).2
          (S "Mutated") (S "x"))
        examplePackageBuild.2
      = Package.Extra (examplePackageBuild.2.stanza examplePackageBuild.1).1
          examplePackageBuild.2 :=
  ⟨by decide, by decide, by decide⟩

theorem splitAtChar_eq_none {c : Char} {l : Str} (h : splitAtChar c l = none) :
    c ∉ l := by
  induction l with
  | nil => simp
  | cons x xs ih =>
    unfold splitAtChar at h
    by_cases hx : x = c
    · rw [if_pos hx] at h
      exact absurd h (by simp)
    · rw [if_neg hx] at h
      intro hm
      rcases List.mem_cons.mp hm with he | hm2
      · exact hx he.symm
      · cases hsp : splitAtChar c xs with
        | none => exact ih hsp hm2
        | some p => rw [hsp] at h; exact absurd h (by simp)

theorem readLoop_fieldSplit (rel inst : Bool) (stanza : Stanza) (lf : Str)
    (ml : Bool) (lv : Str) (l : Line) (rest : List Line)
    (hs : (contStart l || inst) = false) (hnil : l ≠ [])
    (hlen : l.length < MaxFieldSize) (fb vb : Str)
    (hsp : splitAtChar ':' l = some (fb, vb)) :
    readLoop rel inst stanza lf ml lv (l :: rest) =
      readLoop rel inst
        (stanza.set (canonicalCase fb)
          (fieldStartValue (isMultilineField (canonicalCase fb) rel) vb))
        (canonicalCase fb) (isMultilineField (canonicalCase fb) rel)
        (fieldStartValue (isMultilineField (canonicalCase fb) rel) vb) rest := by
  conv_lhs => unfold readLoop
  rw [if_neg (by omega), if_neg (by simpa using hnil), if_neg (by simp [hs]), hsp]

theorem readLoop_rest_le (rel inst : Bool) : ∀ (lines : List Line)
    (st : Stanza) (lf : Str) (ml : Bool) (lv : Str),
    (readLoop rel inst st lf ml lv lines).rest.length ≤ lines.length - 1 := by
  intro lines
  induction lines with
  | nil =>
    intro st lf ml lv
    rw [readLoop_nil]
    simp
  | cons l tl ih =>
    intro st lf ml lv
    have step : ∀ (st2 : Stanza) (lf2 : Str) (ml2 : Bool) (lv2 : Str),
        (readLoop rel inst st2 lf2 ml2 lv2 tl).rest.length
          ≤ (l :: tl).length - 1 := by
      intro st2 lf2 ml2 lv2
      have h := ih st2 lf2 ml2 lv2
      simp only [List.length_cons]
      omega
    by_cases h1 : MaxFieldSize ≤ l.length
    · rw [readLoop_tooLong rel inst st lf ml lv l tl h1]
      simp
    · by_cases h2 : l.length = 0
      · have hl : l = [] := List.length_eq_zero.mp h2
        subst hl
        rw [readLoop_blank]
        by_cases he : st.emptyB = true
        · rw [if_pos he]
          exact step st lf ml lv
        · rw [if_neg he]
          simp
      · have hnil : l ≠ [] := by
          intro e
          subst e
          simp at h2
        have hlen : l.length < MaxFieldSize := by omega
        by_cases h3 : (contStart l || inst) = true
        · rw [readLoop_cont rel inst st lf ml lv l tl h3 hnil hlen]
          by_cases hm : ml = true
          · rw [if_pos hm]
            exact step _ _ _ _
          · rw [if_neg hm]
            exact step _ _ _ _
        · have hs : (contStart l || inst) = false := by
            simpa using h3
          cases hsp : splitAtChar ':' l with
          | none =>
            rw [readLoop_malformed rel inst st lf ml lv l tl hs hnil
              (splitAtChar_eq_none hsp) hlen]
            simp
          | some p =>
            obtain ⟨fb, vb⟩ := p
            rw [readLoop_fieldSplit rel inst st lf ml lv l tl hs hnil hlen
              fb vb hsp]
            exact step _ _ _ _

theorem ReadStanza_nil (rel inst : Bool) :
    ReadStanza rel inst [] = (none, [], none) := rfl

theorem ReadStanza_rest_le (rel inst : Bool) (lines : List Line) :
    (ReadStanza rel inst lines).2.1.length ≤ lines.length - 1 := by
  unfold ReadStanza
  rcases ho : ReadBufferedStanza rel inst [] lines with ⟨b, r, e⟩
  have hr : r.length ≤ lines.length - 1 := by
    have h := readLoop_rest_le rel inst lines [] [] inst []
    unfold ReadBufferedStanza at ho
    rw [ho] at h
    exact h
  cases e with
  | some e2 => exact hr
  | none =>
    show (if ¬ b.emptyB = true
        then ((some b, r, none) : Option Stanza × List Line × Option ReadErr)
        else (none, r, none)).2.1.length ≤ lines.length - 1
    by_cases hb : b.emptyB = true
    · rw [if_neg (by simp [hb])]
      exact hr
    · rw [if_pos (by simp [hb])]
      exact hr

theorem ReadStanza_of_buffered_err (rel inst : Bool) (lines : List Line)
    (st : Stanza) (rest : List Line) (e : ReadErr)
    (h : ReadBufferedStanza rel inst [] lines = ⟨st, rest, some e⟩) :
    ReadStanza rel inst lines = (none, rest, some e) := by
  unfold ReadStanza
  rw [h]

theorem ReadStanza_of_buffered_empty (rel inst : Bool) (lines : List Line)
    (st : Stanza) (rest : List Line)
    (h : ReadBufferedStanza rel inst [] lines = ⟨st, rest, none⟩)
    (he : st.emptyB = true) :
    ReadStanza rel inst lines = (none, rest, none) := by
  unfold ReadStanza
  rw [h]
  simp [he]

theorem readAllFrom_congr (rel inst : Bool) :
    ∀ f1 f2 : Nat, ∀ lines : List Line,
      lines.length < f1 → lines.length < f2 →
      readAllFrom rel inst f1 lines = readAllFrom rel inst f2 lines := by
  intro f1
  induction f1 with
  | zero =>
    intro f2 lines h1 h2
    omega
  | succ a ih =>
    intro f2 lines h1 h2
    cases f2 with
    | zero => omega
    | succ b =>
      rcases hrs : ReadStanza rel inst lines with ⟨sopt, rest, eopt⟩
      conv_lhs => rw [readAllFrom]
      conv_rhs => rw [readAllFrom]
      rw [hrs]
      cases sopt with
      | none => cases eopt <;> rfl
      | some st =>
        cases eopt with
        | some e => rfl
        | none =>
          have hne : lines ≠ [] := by
            intro e
            subst e
            rw [ReadStanza_nil] at hrs
            simp at hrs
          have hpos : 1 ≤ lines.length := by
            cases lines with
            | nil => exact absurd rfl hne
            | cons x xs => simp
          have hr : rest.length ≤ lines.length - 1 := by
            have h := ReadStanza_rest_le rel inst lines
            rw [hrs] at h
            exact h
          show (st :: (readAllFrom rel inst a rest).1,
              (readAllFrom rel inst a rest).2)
            = (st :: (readAllFrom rel inst b rest).1,
              (readAllFrom rel inst b rest).2)
          rw [ih b rest (by omega) (by omega)]

theorem readAllStanzas_congr (rel inst : Bool) {L1 L2 : List Line}
    (h : ReadStanza rel inst L1 = ReadStanza rel inst L2) :
    readAllStanzas rel inst L1 = readAllStanzas rel inst L2 := by
  unfold readAllStanzas
  rcases hrs : ReadStanza rel inst L2 with ⟨sopt, rest, eopt⟩
  have h1 : ReadStanza rel inst L1 = (sopt, rest, eopt) := by rw [h, hrs]
  conv_lhs => rw [readAllFrom]
  conv_rhs => rw [readAllFrom]
  rw [h1, hrs]
  cases sopt with
  | none => cases eopt <;> rfl
  | some st =>
    cases eopt with
    | some e => rfl
    | none =>
      have hne1 : L1 ≠ [] := by
        intro e
        subst e
        rw [ReadStanza_nil] at h1
        simp at h1
      have hne2 : L2 ≠ [] := by
        intro e
        subst e
        rw [ReadStanza_nil] at hrs
        simp at hrs
      have hp1 : 1 ≤ L1.length := by
        cases L1 with
        | nil => exact absurd rfl hne1
        | cons x xs => simp
      have hp2 : 1 ≤ L2.length := by
        cases L2 with
        | nil => exact absurd rfl hne2
        | cons x xs => simp
      have hr1 : rest.length ≤ L1.length - 1 := by
        have hq := ReadStanza_rest_le rel inst L1
        rw [h1] at hq
        exact hq
      have hr2 : rest.length ≤ L2.length - 1 := by
        have hq := ReadStanza_rest_le rel inst L2
        rw [hrs] at hq
        exact hq
      show (st :: (readAllFrom rel inst L1.length rest).1,
          (readAllFrom rel inst L1.length rest).2)
        = (st :: (readAllFrom rel inst L2.length rest).1,
          (readAllFrom rel inst L2.length rest).2)
      rw [readAllFrom_congr rel inst L1.length L2.length rest (by omega)
        (by omega)]

theorem ReadStanza_blank (rel inst : Bool) (lines : List Line) :
    ReadStanza rel inst ([] :: lines) = ReadStanza rel inst lines := by
  unfold ReadStanza ReadBufferedStanza
  rw [readLoop_blank]
  rw [if_pos (by decide : Stanza.emptyB [] = true)]

theorem ReadStanza_replicate_blank (rel inst : Bool) (lines : List Line) :
    ∀ n : Nat, ReadStanza rel inst (List.replicate n [] ++ lines)
      = ReadStanza rel inst lines := by
  intro n
  induction n with
  | zero => rfl
  | succ m ih =>
    rw [List.replicate_succ, List.cons_append, ReadStanza_blank, ih]

theorem readAll_leading_blanks (rel inst : Bool) (n : Nat)
    (lines : List Line) :
    readAllStanzas rel inst (List.replicate n [] ++ lines)
      = readAllStanzas rel inst lines :=
  readAllStanzas_congr rel inst (ReadStanza_replicate_blank rel inst lines n)

theorem readLoop_blankSim (rel inst : Bool) (ys : List Line) :
    ∀ (zs : List Line) (st : Stanza) (lf : Str) (ml : Bool) (lv : Str),
      (readLoop rel inst st lf ml lv (zs ++ [] :: [] :: ys)).buf
          = (readLoop rel inst st lf ml lv (zs ++ [] :: ys)).buf
      ∧ (readLoop rel inst st lf ml lv (zs ++ [] :: [] :: ys)).err
          = (readLoop rel inst st lf ml lv (zs ++ [] :: ys)).err
      ∧ ((∃ zs2 : List Line,
            (readLoop rel inst st lf ml lv (zs ++ [] :: [] :: ys)).rest
              = zs2 ++ [] :: [] :: ys
            ∧ (readLoop rel inst st lf ml lv (zs ++ [] :: ys)).rest
              = zs2 ++ [] :: ys)
         ∨ ((readLoop rel inst st lf ml lv (zs ++ [] :: [] :: ys)).rest
              = [] :: ys
            ∧ (readLoop rel inst st lf ml lv (zs ++ [] :: ys)).rest = ys)
         ∨ (readLoop rel inst st lf ml lv (zs ++ [] :: [] :: ys)).rest
              = (readLoop rel inst st lf ml lv (zs ++ [] :: ys)).rest) := by
  intro zs
  induction zs with
  | nil =>
    intro st lf ml lv
    rw [List.nil_append, List.nil_append, readLoop_blank]
    by_cases he : st.emptyB = true
    · rw [if_pos he, readLoop_blank, if_pos he]
      exact ⟨rfl, rfl, Or.inr (Or.inr rfl)⟩
    · rw [if_neg he, readLoop_blank, if_neg he]
      exact ⟨rfl, rfl, Or.inr (Or.inl ⟨rfl, rfl⟩)⟩
  | cons l zs ih =>
    intro st lf ml lv
    rw [List.cons_append, List.cons_append]
    by_cases h1 : MaxFieldSize ≤ l.length
    · rw [readLoop_tooLong rel inst st lf ml lv l _ h1,
        readLoop_tooLong rel inst st lf ml lv l _ h1]
      exact ⟨rfl, rfl, Or.inl ⟨zs, rfl, rfl⟩⟩
    · by_cases h2 : l.length = 0
      · have hl : l = [] := List.length_eq_zero.mp h2
        subst hl
        rw [readLoop_blank, readLoop_blank]
        by_cases he : st.emptyB = true
        · rw [if_pos he, if_pos he]
          exact ih st lf ml lv
        · rw [if_neg he, if_neg he]
          exact ⟨rfl, rfl, Or.inl ⟨zs, rfl, rfl⟩⟩
      · have hnil : l ≠ [] := by
          intro e
          subst e
          simp at h2
        have hlen : l.length < MaxFieldSize := by omega
        by_cases h3 : (contStart l || inst) = true
        · rw [readLoop_cont rel inst st lf ml lv l _ h3 hnil hlen,
            readLoop_cont rel inst st lf ml lv l _ h3 hnil hlen]
          by_cases hm : ml = true
          · rw [if_pos hm, if_pos hm]
            exact ih _ _ _ _
          · rw [if_neg hm, if_neg hm]
            exact ih _ _ _ _
        · have hs : (contStart l || inst) = false := by
            simpa using h3
          cases hsp : splitAtChar ':' l with
          | none =>
            rw [readLoop_malformed rel inst st lf ml lv l _ hs hnil
                (splitAtChar_eq_none hsp) hlen,
              readLoop_malformed rel inst st lf ml lv l _ hs hnil
                (splitAtChar_eq_none hsp) hlen]
            exact ⟨rfl, rfl, Or.inl ⟨zs, rfl, rfl⟩⟩
          | some p =>
            obtain ⟨fb, vb⟩ := p
            rw [readLoop_fieldSplit rel inst st lf ml lv l _ hs hnil hlen
                fb vb hsp,
              readLoop_fieldSplit rel inst st lf ml lv l _ hs hnil hlen
                fb vb hsp]
            exact ih _ _ _ _

theorem readAll_double_blank (rel inst : Bool) :
    ∀ (n : Nat) (xs ys : List Line), (xs ++ [] :: [] :: ys).length ≤ n →
      readAllStanzas rel inst (xs ++ [] :: [] :: ys)
        = readAllStanzas rel inst (xs ++ [] :: ys) := by
  intro n
  induction n with
  | zero =>
    intro xs ys h
    rw [List.length_append, List.length_cons, List.length_cons] at h
    omega
  | succ m ih =>
    intro xs ys hlen
    obtain ⟨hbuf, herr, hrel⟩ := readLoop_blankSim rel inst ys xs [] [] inst []
    rcases ho1 : readLoop rel inst [] [] inst [] (xs ++ [] :: [] :: ys)
      with ⟨b1, r1, e1⟩
    rcases ho2 : readLoop rel inst [] [] inst [] (xs ++ [] :: ys)
      with ⟨b2, r2, e2⟩
    rw [ho1, ho2] at hbuf herr hrel
    have hB1 : ReadBufferedStanza rel inst [] (xs ++ [] :: [] :: ys)
        = ⟨b1, r1, e1⟩ := by
      unfold ReadBufferedStanza
      exact ho1
    have hB2 : ReadBufferedStanza rel inst [] (xs ++ [] :: ys)
        = ⟨b2, r2, e2⟩ := by
      unfold ReadBufferedStanza
      exact ho2
    have hbuf2 : b1 = b2 := hbuf
    have herr2 : e1 = e2 := herr
    subst hbuf2
    subst herr2
    have hrest1 : r1.length ≤ (xs ++ [] :: [] :: ys).length - 1 := by
      have h := readLoop_rest_le rel inst (xs ++ [] :: [] :: ys) [] [] inst []
      rw [ho1] at h
      exact h
    have hrest2 : r2.length ≤ (xs ++ [] :: ys).length - 1 := by
      have h := readLoop_rest_le rel inst (xs ++ [] :: ys) [] [] inst []
      rw [ho2] at h
      exact h
    cases e1 with
    | some err =>
      have hS1 := ReadStanza_of_buffered_err rel inst _ b1 r1 err hB1
      have hS2 := ReadStanza_of_buffered_err rel inst _ b1 r2 err hB2
      unfold readAllStanzas
      conv_lhs => rw [readAllFrom]
      conv_rhs => rw [readAllFrom]
      rw [hS1, hS2]
    | none =>
      by_cases hb : b1.emptyB = true
      · have hS1 := ReadStanza_of_buffered_empty rel inst _ b1 r1 hB1 hb
        have hS2 := ReadStanza_of_buffered_empty rel inst _ b1 r2 hB2 hb
        unfold readAllStanzas
        conv_lhs => rw [readAllFrom]
        conv_rhs => rw [readAllFrom]
        rw [hS1, hS2]
      · have hbf : b1.emptyB = false := by
          cases hq : b1.emptyB with
          | true => exact absurd hq hb
          | false => rfl
        have hS1 := ReadStanza_of_buffered rel inst _ b1 r1 hB1 hbf
        have hS2 := ReadStanza_of_buffered rel inst _ b1 r2 hB2 hbf
        unfold readAllStanzas
        conv_lhs => rw [readAllFrom]
        conv_rhs => rw [readAllFrom]
        rw [hS1, hS2]
        show (b1 :: (readAllFrom rel inst (xs ++ [] :: [] :: ys).length r1).1,
            (readAllFrom rel inst (xs ++ [] :: [] :: ys).length r1).2)
          = (b1 :: (readAllFrom rel inst (xs ++ [] :: ys).length r2).1,
            (readAllFrom rel inst (xs ++ [] :: ys).length r2).2)
        have hlp1 : 1 ≤ (xs ++ [] :: [] :: ys).length := by
          rw [List.length_append, List.length_cons, List.length_cons]
          omega
        have hlp2 : 1 ≤ (xs ++ [] :: ys).length := by
          rw [List.length_append, List.length_cons]
          omega
        have hc1 : readAllFrom rel inst (xs ++ [] :: [] :: ys).length r1
            = readAllStanzas rel inst r1 := by
          unfold readAllStanzas
          exact readAllFrom_congr rel inst _ _ r1 (by omega) (by omega)
        have hc2 : readAllFrom rel inst (xs ++ [] :: ys).length r2
            = readAllStanzas rel inst r2 := by
          unfold readAllStanzas
          exact readAllFrom_congr rel inst _ _ r2 (by omega) (by omega)
        rw [hc1, hc2]
        have hmain : readAllStanzas rel inst r1 = readAllStanzas rel inst r2 := by
          rcases hrel with ⟨zs2, hz1, hz2⟩ | ⟨hz1, hz2⟩ | hz
          · have hza : r1 = zs2 ++ [] :: [] :: ys := hz1
            have hzb : r2 = zs2 ++ [] :: ys := hz2
            subst hza
            subst hzb
            have hzlen : (zs2 ++ [] :: [] :: ys).length ≤ m := by
              simp only [List.length_append, List.length_cons]
                at hlen hrest1 ⊢
              omega
            exact ih zs2 ys hzlen
          · have hza : r1 = [] :: ys := hz1
            have hzb : r2 = ys := hz2
            rw [hza, hzb]
            have h1 := readAll_leading_blanks rel inst 1 ys
            simp only [List.replicate_succ, List.replicate_zero,
              List.cons_append, List.nil_append] at h1
            exact h1
          · have hzc : r1 = r2 := hz
            rw [hzc]
        rw [hmain]

theorem readAll_blank_separators (rel inst : Bool) :
    ∀ (n : Nat) (xs ys : List Line),
      readAllStanzas rel inst (xs ++ [] :: (List.replicate n [] ++ ys))
        = readAllStanzas rel inst (xs ++ [] :: ys) := by
  intro n
  induction n with
  | zero =>
    intro xs ys
    rfl
  | succ m ih =>
    intro xs ys
    rw [List.replicate_succ, List.cons_append]
    rw [readAll_double_blank rel inst
      (xs ++ [] :: [] :: (List.replicate m [] ++ ys)).length xs
      (List.replicate m [] ++ ys) (le_refl _)]
    exact ih xs ys

/-- C5: while reading one stanza, a blank line terminates the stanza exactly
when the buffer accumulated so far is non-empty (otherwise it is skipped);
consequently leading blank lines and extra blank lines in a stanza
separator do not change the parsed sequence of stanzas (nor the final
error). -/
theorem C5_blank_line_semantics (rel inst : Bool) :
    (∀ (st : Stanza) (lf : Str) (ml : Bool) (lv : Str) (rest : List Line),
      readLoop rel inst st lf ml lv ([] :: rest)
        = if st.emptyB then readLoop rel inst st lf ml lv rest
          else ⟨st, rest, none⟩)
    ∧ (∀ (n : Nat) (lines : List Line),
      readAllStanzas rel inst (List.replicate n [] ++ lines)
        = readAllStanzas rel inst lines)
    ∧ (∀ (n : Nat) (xs ys : List Line),
      readAllStanzas rel inst (xs ++ [] :: (List.replicate n [] ++ ys))
        = readAllStanzas rel inst (xs ++ [] :: ys)) :=
  ⟨fun st lf ml lv rest => readLoop_blank rel inst st lf ml lv rest,
   fun n lines => readAll_leading_blanks rel inst n lines,
   fun n xs ys => readAll_blank_separators rel inst n xs ys⟩
